import Mathlib

/-!
# Mitsuki's Room — verification of the hand evaluator and table engine

A shallow embedding, in Lean 4, of the poker server found in this
repository, together with proofs and refutations of the specification's
claims about it.

Conventions of the embedding:

* JavaScript numbers holding chip amounts, bet levels and scores are
  embedded as `Int` (all claim-relevant code paths stay integral).
* JavaScript arrays become `List`s; in-place mutation of a player object
  becomes replacement of the player at their seat index.
* `Array.prototype.sort` with a numeric comparator becomes
  `List.insertionSort` with the corresponding total order.
* Side effects with no bearing on game state (logging, broadcast,
  timers, the AI dealer commentary, session statistics, the audit-only
  hand-history record, the floating-point ELO update) are omitted; no
  claim in scope mentions them.
* Each definition carries a comment naming the source file and lines it
  embeds.
-/

namespace MitsukisRoom

/-! ## Configuration (src/unnamed/part_000, the config module) -/

def MIN_PLAYERS : Nat := 2
def MAX_PLAYERS : Nat := 9
def SMALL_BLIND : Int := 1
def BIG_BLIND : Int := 2
def MIN_BUY_IN : Int := 40
def MAX_BUY_IN : Int := 400
def DEFAULT_BUY_IN : Int := 200
/-- config.RUN_IT_TWICE.enabled -/
def RUN_IT_TWICE_ENABLED : Bool := true

/-! ## Cards (src/unnamed/part_007, deck.js: SUITS, RANKS, RANK_VALUES) -/

inductive Suit where
  | spades | hearts | diamonds | clubs
deriving DecidableEq, Repr, Fintype

inductive Rank where
  | two | three | four | five | six | seven | eight | nine
  | ten | jack | queen | king | ace
deriving DecidableEq, Repr, Fintype

/-- deck.js RANK_VALUES: the numeric value used by the evaluator. -/
def rankValue : Rank → Int
  | .two => 2 | .three => 3 | .four => 4 | .five => 5 | .six => 6
  | .seven => 7 | .eight => 8 | .nine => 9 | .ten => 10
  | .jack => 11 | .queen => 12 | .king => 13 | .ace => 14

structure Card where
  rank : Rank
  suit : Suit
deriving DecidableEq, Repr

/-- Descending numeric sort, as the source's `sort((a, b) => b - a)`. -/
def sortDesc (l : List Int) : List Int :=
  l.insertionSort (fun a b => b ≤ a)

/-! ## Hand evaluator (src/game/hand-eval.js) -/

/-- hand-eval.js HAND_NAMES. -/
def HAND_NAMES : Nat → String
  | 1 => "Royal Flush"
  | 2 => "Straight Flush"
  | 3 => "Four of a Kind"
  | 4 => "Full House"
  | 5 => "Flush"
  | 6 => "Straight"
  | 7 => "Three of a Kind"
  | 8 => "Two Pair"
  | 9 => "One Pair"
  | 10 => "High Card"
  | _ => ""

/-- Result of `evaluate5`: `{ rank, score, name }` (hand-eval.js:50-152). -/
structure HandEval where
  rank : Nat
  score : List Int
  name : String
deriving DecidableEq, Repr

/-- hand-eval.js:29-44 `combinations(cards, k)`: all k-element
subsequences, element order preserved.  The source enumerates them with
a start-index/accumulator recursion; this is the same enumeration
written structurally. -/
def combinations : List α → Nat → List (List α)
  | _, 0 => [[]]
  | [], _ + 1 => []
  | x :: xs, k + 1 =>
      ((combinations xs k).map (fun c => x :: c)) ++ combinations xs (k + 1)

/-- hand-eval.js:97-99 `kickers(exclude)`: values not part of the made
hand, sorted descending. -/
def kickersFrom (values exclude : List Int) : List Int :=
  sortDesc (values.filter (fun v => ¬ exclude.contains v))

/-- The straight scan of hand-eval.js:62-76: the sorted distinct values,
descending. -/
def uniqueDesc (values : List Int) : List Int :=
  sortDesc values.dedup

/-- hand-eval.js:64-69: first window `unique[i] - unique[i+4] === 4`. -/
def normalStraightHigh (unique : List Int) : Option Int :=
  ((List.range (unique.length - 4)).find?
      (fun i => unique.getD i 0 - unique.getD (i + 4) 0 == 4)).map
    (fun i => unique.getD i 0)

/-- hand-eval.js:72 the wheel test (A-2-3-4-5). -/
def isWheel (unique : List Int) : Bool :=
  unique.contains 14 && unique.contains 2 && unique.contains 3 &&
    unique.contains 4 && unique.contains 5

/-- hand-eval.js:55 `suits.every(s => s === suits[0])`. -/
def isFlushOf (suits : List Suit) : Bool :=
  match suits with
  | [] => true
  | s0 :: _ => suits.all (fun s => s == s0)

/-- hand-eval.js:50-152 `evaluate5(cards)`.

The JS `Object.entries(counts)` walk visits numeric keys in ascending
order and in five cards at most one rank can occur three or four times,
so `fourKind`/`threeKind` are embedded as the unique such value (0 when
absent, matching the source's `0` initialisation and truthiness tests),
and `pairs` as the sorted list of values occurring exactly twice. -/
def evaluate5 (cards : List Card) : HandEval :=
  let values := sortDesc (cards.map (fun c => rankValue c.rank))
  let suits := cards.map (fun c => c.suit)
  let isFlush := isFlushOf suits
  let unique := uniqueDesc values
  let straightInfo : Bool × Int :=
    if unique.length ≥ 5 then
      match normalStraightHigh unique with
      | some h => (true, h)
      | none => if isWheel unique then (true, 5) else (false, 0)
    else (false, 0)
  let isStraight := straightInfo.1
  let straightHigh := straightInfo.2
  let fourKind := ((values.dedup.find? (fun v => values.count v == 4)).getD 0)
  let threeKind := ((values.dedup.find? (fun v => values.count v == 3)).getD 0)
  let pairs := sortDesc (values.dedup.filter (fun v => values.count v == 2))
  if isFlush && isStraight && straightHigh == 14 then
    ⟨1, [1], HAND_NAMES 1⟩
  else if isFlush && isStraight then
    ⟨2, [2, straightHigh], HAND_NAMES 2⟩
  else if fourKind != 0 then
    ⟨3, 3 :: fourKind :: (kickersFrom values [fourKind]).take 1, HAND_NAMES 3⟩
  else if threeKind != 0 && pairs.length ≥ 1 then
    ⟨4, [4, threeKind, pairs.getD 0 0], HAND_NAMES 4⟩
  else if isFlush then
    ⟨5, 5 :: values.take 5, HAND_NAMES 5⟩
  else if isStraight then
    ⟨6, [6, straightHigh], HAND_NAMES 6⟩
  else if threeKind != 0 then
    ⟨7, 7 :: threeKind :: (kickersFrom values [threeKind]).take 2, HAND_NAMES 7⟩
  else if pairs.length ≥ 2 then
    ⟨8, 8 :: pairs.getD 0 0 :: pairs.getD 1 0 ::
        (kickersFrom values [pairs.getD 0 0, pairs.getD 1 0]).take 1, HAND_NAMES 8⟩
  else if pairs.length == 1 then
    ⟨9, 9 :: pairs.getD 0 0 :: (kickersFrom values [pairs.getD 0 0]).take 3, HAND_NAMES 9⟩
  else
    ⟨10, 10 :: values.take 5, HAND_NAMES 10⟩

/-- The kicker loop of `compareScores` once the left score has run out:
each remaining right entry is compared against `a[i] || 0 = 0`. -/
def cmpTail : List Int → Int
  | [] => 0
  | y :: ys => if (0 : Int) ≠ y then 0 - y else cmpTail ys

/-- The kicker loop once the right score has run out. -/
def cmpHead : List Int → Int
  | [] => 0
  | x :: xs => if x ≠ (0 : Int) then x else cmpHead xs

/-- hand-eval.js:181-186: the kicker loop of `compareScores`, on the
score tails (index 1 upward), reading past-the-end entries as 0
(`a[i] || 0`). -/
def cmpKick : List Int → List Int → Int
  | [], b => cmpTail b
  | x :: xs, [] => cmpHead (x :: xs)
  | x :: xs, y :: ys => if x ≠ y then x - y else cmpKick xs ys

/-- hand-eval.js:176-187 `compareScores(a, b)`: positive iff `a` is the
better score. -/
def compareScores (a b : List Int) : Int :=
  if a.getD 0 0 ≠ b.getD 0 0 then b.getD 0 0 - a.getD 0 0
  else cmpKick (a.drop 1) (b.drop 1)

/-- hand-eval.js:158-170 `evaluateHand(sevenCards)`: best 5-card
evaluation over all combinations (`none` exactly when there is no
combination, which the source leaves as `best = null`).  The chosen
combination is returned alongside, as the source's `bestCards`. -/
def evaluateHand (sevenCards : List Card) : Option (HandEval × List Card) :=
  (combinations sevenCards 5).foldl
    (fun best combo =>
      let result := evaluate5 combo
      match best with
      | none => some (result, combo)
      | some (b, bc) =>
          if compareScores result.score b.score > 0 then some (result, combo)
          else some (b, bc))
    none

/-- hand-eval.js:193-195 `compareHands`. -/
def compareHands (a b : HandEval) : Int :=
  compareScores a.score b.score

/-- A showdown contender: the source's `{ player, hand, seat }` entry
(table.js:1198-1202), with the player identified by seat index. -/
structure PlayerHand where
  seat : Nat
  hand : HandEval
deriving DecidableEq, Repr

/-- hand-eval.js:201-217 `determineWinners(playerHands)`. -/
def determineWinners (playerHands : List PlayerHand) : List PlayerHand :=
  match playerHands with
  | [] => []
  | first :: rest =>
      rest.foldl
        (fun best ph =>
          match best with
          | [] => [ph]
          | b0 :: _ =>
              let cmp := compareHands ph.hand b0.hand
              if cmp > 0 then [ph]
              else if cmp = 0 then best ++ [ph]
              else best)
        [first]

/-- The descending sort relation used throughout the evaluator. -/
instance : IsTotal Int (fun a b => b ≤ a) := ⟨fun a b => le_total b a⟩

instance : IsTrans Int (fun a b => b ≤ a) := ⟨fun _ _ _ h1 h2 => le_trans h2 h1⟩

instance : IsAntisymm Int (fun a b => b ≤ a) := ⟨fun _ _ h1 h2 => le_antisymm h2 h1⟩

/-- A sample 7-card board + hole pair used to witness C7. -/
def sevenCardSample : List Card :=
  [⟨.ace, .spades⟩, ⟨.king, .spades⟩, ⟨.seven, .hearts⟩, ⟨.seven, .diamonds⟩,
   ⟨.two, .clubs⟩, ⟨.nine, .spades⟩, ⟨.jack, .hearts⟩]

/-! ## Players (src/unnamed/part_008, player.js)

The session-statistics block, the time-bank counters, the ELO rating
(whose update is floating point) and the sit-out timers have no effect
on the game-state claims in scope and are omitted from the record. -/

/-- The `status` string enum of player.js:16. -/
inductive PStatus where
  | waiting | active | folded | allIn | sittingOut
deriving DecidableEq, Repr

/-- player.js:9-52 — the game-state fields of `Player`.  `seat` is
`null` until `seatPlayer` assigns it; it is embedded as a `Nat` that is
only read after seating. -/
structure Player where
  id : Nat
  name : String
  stack : Int
  holeCards : List Card
  seat : Nat
  status : PStatus
  currentBet : Int
  totalBetThisHand : Int
  lastAction : Option String
  sitOut : Bool
  handsWon : Nat
  handsPlayed : Nat
deriving DecidableEq, Repr

/-- player.js:10-52 constructor (game-state fields). -/
def Player.make (id : Nat) (name : String) (buyIn : Int) : Player :=
  { id := id, name := name, stack := buyIn, holeCards := [], seat := 0,
    status := .waiting, currentBet := 0, totalBetThisHand := 0,
    lastAction := none, sitOut := false, handsWon := 0, handsPlayed := 0 }

/-- player.js:75-84 `bet(amount)`: commit `min(amount, stack)`, marking
the player all-in when the stack hits exactly 0; returns the amount
actually committed. -/
def Player.bet (p : Player) (amount : Int) : Player × Int :=
  let actual := min amount p.stack
  let stack2 := p.stack - actual
  ({ p with
      stack := stack2,
      currentBet := p.currentBet + actual,
      totalBetThisHand := p.totalBetThisHand + actual,
      status := if stack2 == 0 then .allIn else p.status },
    actual)

/-- player.js:87-89 `award(amount)`. -/
def Player.award (p : Player) (amount : Int) : Player :=
  { p with stack := p.stack + amount }

/-- player.js:55-67 `resetForHand()`. -/
def Player.resetForHand (p : Player) : Player :=
  { p with
      holeCards := [],
      status := if p.sitOut then .sittingOut
        else if p.stack > 0 then .active else .sittingOut,
      currentBet := 0,
      totalBetThisHand := 0,
      lastAction := none }

/-- player.js:70-72 `resetBetForRound()`. -/
def Player.resetBetForRound (p : Player) : Player :=
  { p with currentBet := 0 }

/-! ## Table state (src/game/table.js) -/

/-- table.js:12 PHASES. -/
inductive Phase where
  | waiting | preflop | flop | turn | river | showdown
deriving DecidableEq, Repr

/-- table.js:36 — entries of `this.pots`. -/
structure Pot where
  amount : Int
  eligible : List Nat
  name : String
deriving DecidableEq, Repr

/-- The game-state fields of `Table` (table.js:14-79).  Timers, chat,
logs, hand history records, bomb-pot voting and broadcast hooks are
omitted; the run-it-twice voting state is kept because
`checkHandProgress` can enter it.  The deck is the current card order
(the shuffle's output is an input of the model). -/
structure TableState where
  seats : List (Option Player)
  deck : List Card
  communityCards : List Card
  pot : Int
  pots : List Pot
  phase : Phase
  dealerSeat : Int
  currentPlayerIndex : Int
  minRaise : Int
  currentBetLevel : Int
  handNumber : Nat
  smallBlind : Int
  bigBlind : Int
  minBuyIn : Int
  maxBuyIn : Int
  runItTwiceActive : Bool
  runItTwiceVotes : List (Nat × Bool)
  runItTwiceEligiblePlayers : List Nat
deriving DecidableEq, Repr

/-- table.js:196-198 `seatedPlayers()`. -/
def seatedPlayers (s : TableState) : List Player :=
  s.seats.filterMap id

/-- table.js:201-203 `activePlayers()`. -/
def activePlayers (s : TableState) : List Player :=
  (seatedPlayers s).filter
    (fun p => !p.sitOut && (p.status == PStatus.active || p.status == PStatus.allIn))

/-- table.js:206-208 `actingPlayers()`. -/
def actingPlayers (s : TableState) : List Player :=
  (seatedPlayers s).filter (fun p => p.status == PStatus.active)

/-- table.js:211-213 `findPlayer(token)`. -/
def findPlayer (s : TableState) (token : Nat) : Option Player :=
  (seatedPlayers s).find? (fun p => p.id == token)

/-- `this.seats[idx]` for a computed index: out-of-range reads are
`undefined` in JS and are treated as an empty seat, like `null`. -/
def seatGet (s : TableState) (i : Int) : Option Player :=
  if 0 ≤ i ∧ i < (s.seats.length : Int) then s.seats.getD i.toNat none else none

/-- In-place mutation of the player object seated at index `i`. -/
def updateSeat (s : TableState) (i : Nat) (p : Player) : TableState :=
  { s with seats := s.seats.set i (some p) }

/-- table.js:771-774 `getCurrentPlayer()`. -/
def getCurrentPlayer (s : TableState) : Option Player :=
  if s.currentPlayerIndex < 0 ∨ (s.seats.length : Int) ≤ s.currentPlayerIndex then none
  else s.seats.getD s.currentPlayerIndex.toNat none

/-- table.js:687-698 `getPlayersFromSeat(seatIndex, inclusive)`. -/
def getPlayersFromSeat (s : TableState) (seatIndex : Int) (inclusive : Bool) : List Player :=
  let start := if inclusive then 0 else 1
  (List.range' start (MAX_PLAYERS - start)).filterMap
    (fun i =>
      match seatGet s ((seatIndex + (i : Int)).emod (MAX_PLAYERS : Int)) with
      | some p => if p.status != PStatus.sittingOut then some p else none
      | none => none)

/-- table.js:652-660 — which two players post the blinds: heads-up the
button is the small blind, otherwise the two seats after the button.
The source indexes `orderedFromDealer[1]`/`[2]` unguarded; with fewer
than three non-sitting-out players it would throw — that situation
cannot arise with the caller's two-active-player guard, and the model
returns `none` there. -/
def pickBlinds (s : TableState) : Option (Player × Player) :=
  let orderedFromDealer := getPlayersFromSeat s s.dealerSeat true
  if orderedFromDealer.length == 2 then
    match orderedFromDealer with
    | [a, b] => some (a, b)
    | _ => none
  else
    match orderedFromDealer with
    | _ :: b :: c :: _ => some (b, c)
    | _ => none

/-- table.js:641-675 `postBlinds()` (broadcast omitted). -/
def postBlinds (s : TableState) : TableState :=
  let players := (seatedPlayers s).filter (fun p => p.status == PStatus.active)
  if players.length < 2 then s
  else
    match pickBlinds s with
    | none => s
    | some (sbPlayer, bbPlayer) =>
        let sbr := sbPlayer.bet s.smallBlind
        let s1 := updateSeat s sbr.1.seat { sbr.1 with lastAction := some "small blind" }
        let s1 := { s1 with pot := s1.pot + sbr.2 }
        let bbr := bbPlayer.bet s.bigBlind
        let s2 := updateSeat s1 bbr.1.seat { bbr.1 with lastAction := some "big blind" }
        { s2 with pot := s2.pot + bbr.2, currentBetLevel := s2.bigBlind }

/-! ## Pot engine (table.js:1360-1448 `calculatePots`) -/

/-- table.js:1362 — seated players who have contributed this hand. -/
def allContributors (s : TableState) : List Player :=
  (seatedPlayers s).filter (fun p => p.totalBetThisHand > 0)

/-- table.js:1371-1377 — distinct all-in contribution levels, ascending
(`sort` then `Set`). -/
def allInLevels (s : TableState) : List Int :=
  ((((activePlayers s).filter (fun p => p.status == PStatus.allIn)).map
      (fun p => p.totalBetThisHand)).insertionSort (fun a b => a ≤ b)).dedup

/-- table.js:1414 `Math.max(...uniqueLevels)` guarded by emptiness. -/
def maxAllInLevel (s : TableState) : Int :=
  match allInLevels s with
  | [] => 0
  | x :: xs => xs.foldl max x

/-- table.js:1415 — active (non-all-in) players. -/
def activeNonAllIn (s : TableState) : List Player :=
  (activePlayers s).filter (fun p => p.status == PStatus.active)

/-- table.js:1383-1411 — the per-level pot loop, carrying `prevLevel`
and the pot list. -/
def levelPotsGo (contributors active : List Player) :
    List Int → Int → List Pot → List Pot × Int
  | [], prev, pots => (pots, prev)
  | level :: rest, prev, pots =>
      let increment := level - prev
      if increment ≤ 0 then levelPotsGo contributors active rest prev pots
      else
        let potAmount := contributors.foldl
          (fun acc p =>
            let contribution := min (p.totalBetThisHand - prev) increment
            if contribution > 0 then acc + contribution else acc) 0
        let eligible := (active.filter (fun p => p.totalBetThisHand ≥ level)).map
          (fun p => p.seat)
        let pots2 :=
          if potAmount > 0 && !eligible.isEmpty then
            pots ++ [⟨potAmount, eligible,
              if pots.length == 0 then "Main Pot"
              else "Side Pot " ++ toString pots.length⟩]
          else pots
        levelPotsGo contributors active rest level pots2

/-- table.js:1360-1448 `calculatePots()`. -/
def calculatePots (s : TableState) : TableState :=
  if (allContributors s).isEmpty then { s with pots := [] }
  else
    let pots1 := (levelPotsGo (allContributors s) (activePlayers s) (allInLevels s) 0 []).1
    let pots2 :=
      if !(activeNonAllIn s).isEmpty then
        let remainingAmount := (allContributors s).foldl
          (fun acc p => acc + max 0 (p.totalBetThisHand - maxAllInLevel s)) 0
        if remainingAmount > 0 then
          pots1 ++ [⟨remainingAmount, (activePlayers s).map (fun p => p.seat),
            if pots1.length == 0 then "Main Pot"
            else "Side Pot " ++ toString pots1.length⟩]
        else pots1
      else pots1
    let pots3 :=
      if pots2.length == 0 && s.pot > 0 then
        [⟨s.pot, (activePlayers s).map (fun p => p.seat), "Main Pot"⟩]
      else pots2
    { s with pots := pots3 }

/-! ## Showdown and distribution (table.js:1174-1357) -/

/-- A row of the `distributions` array of table.js:1280-1294, the
player identified by their seat. -/
structure Distribution where
  seat : Nat
  amount : Int
  hand : HandEval
deriving DecidableEq, Repr

/-- table.js:1280-1294 `distributePot(amount, winners, eligibleSeats)`:
each winner's share is `Math.floor(amount / winners.length)` (JS float
division floored = `Int.fdiv`); the remainder is what is left.
`eligibleSeats` is accepted and unused, as in the source. -/
def distributePot (amount : Int) (winners : List PlayerHand) (eligibleSeats : List Nat) :
    List Distribution × Int :=
  let _ := eligibleSeats
  let share := Int.fdiv amount (winners.length : Int)
  let remainder := amount - share * (winners.length : Int)
  (winners.map (fun w => ⟨w.seat, share, w.hand⟩), remainder)

/-- table.js:1316-1326 `getDistanceFromDealer(seatIndex)`: walk left
from the button until the seat is found, capped at MAX_PLAYERS.  The
loop is written on a step counter equal to `MAX_PLAYERS − distance`,
which reaches 0 exactly when the source's `distance < MAX_PLAYERS`
guard is about to fail, so both exits coincide. -/
def getDistanceFromDealerGo (seatIndex : Int) : Int → Nat → Nat → Nat
  | _, distance, 0 => distance
  | current, distance, steps + 1 =>
      if current ≠ seatIndex ∧ distance < MAX_PLAYERS then
        getDistanceFromDealerGo seatIndex ((current + 1).emod (MAX_PLAYERS : Int))
          (distance + 1) steps
      else distance

def getDistanceFromDealer (s : TableState) (seatIndex : Nat) : Nat :=
  getDistanceFromDealerGo (seatIndex : Int) s.dealerSeat 0 MAX_PLAYERS

/-- table.js:1297-1313 `getOddChipWinner(winners)`: first winner of
minimal distance from the button (winners identified by seat; `none`
only on an empty list, where the source would return `undefined`). -/
def getOddChipWinner (s : TableState) (winners : List Nat) : Option Nat :=
  match winners with
  | [] => none
  | w0 :: _ =>
      if winners.length ≤ 1 then some w0
      else
        some (winners.foldl
          (fun best p =>
            if getDistanceFromDealer s p < getDistanceFromDealer s best then p else best)
          w0)

/-- `player.award(amount)` applied to whoever sits at `seat`. -/
def awardSeat (s : TableState) (seat : Nat) (amount : Int) : TableState :=
  match s.seats.getD seat none with
  | some p => updateSeat s seat (p.award amount)
  | none => s

/-- table.js:1456-1468 `scheduleNextHand()`: the synchronous part zeroes
the pot state; the delayed restart is a separate event outside this
step. -/
def scheduleNextHandSync (s : TableState) : TableState :=
  { s with pot := 0, pots := [] }

/-- table.js:1329-1357 `awardPotToSingleWinner(player)` (history record
reduced to its `handsPlayed` side effect). -/
def awardPotToSingleWinner (s : TableState) (p : Player) : TableState :=
  let s := { s with phase := Phase.showdown }
  let totalPot := s.pot
  let p2 := { p.award totalPot with handsWon := p.handsWon + 1 }
  let s := updateSeat s p.seat p2
  let s := updateSeat s p.seat { p2 with handsPlayed := p2.handsPlayed + 1 }
  scheduleNextHandSync { s with pot := 0, pots := [] }

/-- The hand used when `evaluateHand` has no 5-card combination to rank;
the source would fail there, and no reachable showdown does. -/
def noHand : HandEval := ⟨11, [], ""⟩

/-- table.js:1177-1277 `showdown()` (pit-boss narration, broadcast, ELO
and the audit record omitted; `recordHandHistory`'s `handsPlayed`
increment kept). -/
def showdown (s : TableState) : TableState :=
  let s := { s with phase := Phase.showdown }
  let contenders := activePlayers s
  match contenders with
  | [] => s
  | [c] => awardPotToSingleWinner s c
  | _ =>
      let s := calculatePots s
      let playerHands : List PlayerHand := contenders.map
        (fun p => ⟨p.seat,
          ((evaluateHand (p.holeCards ++ s.communityCards)).map Prod.fst).getD noHand⟩)
      let s := s.pots.foldl
        (fun s pot =>
          let eligible := playerHands.filter (fun ph => pot.eligible.contains ph.seat)
          if eligible.isEmpty then s
          else
            let winners := determineWinners eligible
            let dr := distributePot pot.amount winners pot.eligible
            let distributions := dr.1
            let remainder := dr.2
            let s := distributions.foldl
              (fun s dist =>
                match s.seats.getD dist.seat none with
                | some p =>
                    updateSeat s dist.seat { p.award dist.amount with handsWon := p.handsWon + 1 }
                | none => s) s
            if remainder > 0 && !distributions.isEmpty then
              match getOddChipWinner s (distributions.map (fun d => d.seat)) with
              | some w => awardSeat s w remainder
              | none => s
            else s) s
      let s := contenders.foldl
        (fun s ph =>
          match s.seats.getD ph.seat none with
          | some p => updateSeat s ph.seat { p with handsPlayed := p.handsPlayed + 1 }
          | none => s) s
      scheduleNextHandSync s

/-! ## Dealing (table.js:1121-1172) -/

/-- Burn one card, deal `n` to the board (deck exhaustion would throw in
the source; the model deals what remains). -/
def burnAndDeal (s : TableState) (n : Nat) : TableState :=
  let afterBurn := s.deck.drop 1
  { s with communityCards := s.communityCards ++ afterBurn.take n,
           deck := afterBurn.drop n }

/-- table.js:1136-1147 `dealFlop()`. -/
def dealFlop (s : TableState) : TableState := burnAndDeal s 3

/-- table.js:1149-1159 `dealTurn()`. -/
def dealTurn (s : TableState) : TableState := burnAndDeal s 1

/-- table.js:1161-1172 `dealRiver()`. -/
def dealRiver (s : TableState) : TableState := burnAndDeal s 1

/-- table.js:1122-1126 — the run-out loop, one burn+deal per missing
board card. -/
def runOutLoop : Nat → TableState → TableState
  | 0, s => s
  | n + 1, s => runOutLoop n (burnAndDeal s 1)

/-- table.js:1121-1134 `runOutBoard()`. -/
def runOutBoard (s : TableState) : TableState :=
  showdown (runOutLoop (5 - s.communityCards.length) s)

/-! ## Run-it-twice gating (table.js:350-381) -/

/-- table.js:350-360 `checkRunItTwiceEligible()` (the source's local
`activePlayers` is `this.actingPlayers()`). -/
def checkRunItTwiceEligible (s : TableState) : Bool :=
  RUN_IT_TWICE_ENABLED &&
    ((activePlayers s).filter (fun p => p.status == PStatus.allIn)).length ≥ 1 &&
    (actingPlayers s).length ≤ 1 &&
    (activePlayers s).length == 2

/-- table.js:363-381 `promptRunItTwice()` (vote timer omitted). -/
def promptRunItTwice (s : TableState) : TableState :=
  if !checkRunItTwiceEligible s then s
  else
    { s with runItTwiceActive := true, runItTwiceVotes := [],
             runItTwiceEligiblePlayers := (activePlayers s).map (fun p => p.id) }

/-! ## Betting rounds and turn order (table.js:703-1118) -/

/-- table.js:1063-1084 `isBettingRoundComplete(nextPlayer)`.  The
source's `p === nextPlayer` reference equality is seat identity (one
object per seat). -/
def isBettingRoundComplete (s : TableState) (nextPlayer : Player) : Bool :=
  let acting := actingPlayers s
  if acting.any (fun p =>
      p.currentBet < s.currentBetLevel ||
      p.lastAction == none ||
      ((p.lastAction == some "small blind" || p.lastAction == some "big blind") &&
        p.seat == nextPlayer.seat)) then
    false
  else
    nextPlayer.currentBet == s.currentBetLevel &&
    nextPlayer.lastAction != none &&
    nextPlayer.lastAction != some "small blind" &&
    nextPlayer.lastAction != some "big blind"

/-- table.js:733-768 `setFirstToAct()`.  `this.seats.indexOf(p)` is the
player's seat index; `indexOf(undefined)` is −1.  The 3-plus-player
branch's first assignment is immediately recomputed from the seat after
the big blind, so only the effective assignment is kept, falling back
to the third active seat when no active player follows the BB. -/
def setFirstToAct (s : TableState) : TableState :=
  let acting := actingPlayers s
  if acting.isEmpty then { s with currentPlayerIndex := -1 }
  else if s.phase == Phase.preflop then
    let orderedFromDealer := getPlayersFromSeat s s.dealerSeat true
    let activeSeatOrder := orderedFromDealer.filter (fun p => p.status == PStatus.active)
    if activeSeatOrder.length ≤ 2 then
      match activeSeatOrder with
      | a0 :: _ => { s with currentPlayerIndex := (a0.seat : Int) }
      | [] => { s with currentPlayerIndex := -1 }
    else
      match activeSeatOrder with
      | _ :: a1 :: a2 :: _ =>
          let afterBB := (getPlayersFromSeat s (a1.seat : Int) false).filter
            (fun p => p.status == PStatus.active)
          match afterBB with
          | b :: _ => { s with currentPlayerIndex := (b.seat : Int) }
          | [] => { s with currentPlayerIndex := (a2.seat : Int) }
      | _ => s
  else
    let afterDealer := (getPlayersFromSeat s s.dealerSeat false).filter
      (fun p => p.status == PStatus.active)
    match afterDealer with
    | b :: _ => { s with currentPlayerIndex := (b.seat : Int) }
    | [] => s

/-- Apply a mutation to every seated player object. -/
def mapSeats (s : TableState) (f : Player → Player) : TableState :=
  { s with seats := s.seats.map (Option.map f) }

/-- table.js:1091-1094 — `advancePhase`'s reset of the acting players'
round state. -/
def resetActingForNewRound (s : TableState) : TableState :=
  mapSeats s (fun p =>
    if p.status == PStatus.active then { p with lastAction := none, currentBet := 0 } else p)

/-- table.js:705-707 — `startBettingRound`'s reset of every seated
player's round bet. -/
def resetBetsForRound (s : TableState) : TableState :=
  mapSeats s (fun p => p.resetBetForRound)

/-- table.js:714-716 — preflop only: blinds carry over into
`currentBet`. -/
def restoreBlindBets (s : TableState) : TableState :=
  mapSeats s (fun p =>
    if !p.sitOut && (p.status == PStatus.active || p.status == PStatus.allIn) then
      { p with currentBet := p.totalBetThisHand }
    else p)

/-! The progression functions table.js:703-1060 form a recursive knot
(`advancePhase` ↔ `startBettingRound`, `promptCurrentPlayer` ↔
`advanceToNextPlayer`, entered through `checkHandProgress`); each link
strictly advances the hand, so a fuel of the phase distance bounds the
recursion and every concrete run below uses ample fuel. -/

mutual

/-- table.js:1003-1037 `checkHandProgress()`. -/
def checkHandProgress : Nat → TableState → TableState
  | 0, s => s
  | fuel + 1, s =>
      let active := activePlayers s
      let acting := actingPlayers s
      match active with
      | [p] => awardPotToSingleWinner s p
      | _ =>
          if acting.length ≤ 1 then
            match acting with
            | [lastActor] =>
                if lastActor.currentBet < s.currentBetLevel then
                  promptCurrentPlayer fuel
                    { s with currentPlayerIndex := (lastActor.seat : Int) }
                else if checkRunItTwiceEligible s then promptRunItTwice s
                else runOutBoard s
            | _ =>
                if checkRunItTwiceEligible s then promptRunItTwice s
                else runOutBoard s
          else advanceToNextPlayer fuel s

/-- table.js:1040-1060 `advanceToNextPlayer()`. -/
def advanceToNextPlayer : Nat → TableState → TableState
  | 0, s => s
  | fuel + 1, s =>
      let startSeat := s.currentPlayerIndex
      match (List.range' 1 MAX_PLAYERS).findSome?
          (fun i =>
            let idx := (startSeat + (i : Int)).emod (MAX_PLAYERS : Int)
            match seatGet s idx with
            | some p => if p.status == PStatus.active then some (idx, p) else none
            | none => none) with
      | some (idx, p) =>
          if isBettingRoundComplete s p then advancePhase fuel s
          else promptCurrentPlayer fuel { s with currentPlayerIndex := idx }
      | none => advancePhase fuel s

/-- table.js:777-802 `promptCurrentPlayer()` (broadcast and turn timer
are outside the game state; the skip of a missing or non-active current
player is its state effect). -/
def promptCurrentPlayer : Nat → TableState → TableState
  | 0, s => s
  | fuel + 1, s =>
      match getCurrentPlayer s with
      | some p => if p.status != PStatus.active then advanceToNextPlayer fuel s else s
      | none => advanceToNextPlayer fuel s

/-- table.js:1089-1118 `advancePhase()`. -/
def advancePhase : Nat → TableState → TableState
  | 0, s => s
  | fuel + 1, s =>
      let s := resetActingForNewRound s
      let s := { s with currentBetLevel := 0, minRaise := s.bigBlind }
      match s.phase with
      | Phase.preflop => startBettingRound fuel (dealFlop { s with phase := Phase.flop })
      | Phase.flop => startBettingRound fuel (dealTurn { s with phase := Phase.turn })
      | Phase.turn => startBettingRound fuel (dealRiver { s with phase := Phase.river })
      | Phase.river => showdown s
      | _ => s

/-- table.js:703-730 `startBettingRound()`. -/
def startBettingRound : Nat → TableState → TableState
  | 0, s => s
  | fuel + 1, s =>
      let s := resetBetsForRound s
      let s := { s with currentBetLevel := 0 }
      let s :=
        if s.phase == Phase.preflop then
          let s := restoreBlindBets s
          { s with currentBetLevel := s.bigBlind, minRaise := s.bigBlind }
        else s
      let s := setFirstToAct s
      if (actingPlayers s).length ≤ 1 then advancePhase fuel s
      else promptCurrentPlayer fuel s

end

/-! ## handleAction (table.js:860-1000) -/

/-- The six error returns of `handleAction`, in source order. -/
inductive ActionError where
  | playerNotFound
  | noActiveHand
  | notYourTurn
  | cannotCheck
  | minRaiseIsTo (m : Int)
  | unknownAction
deriving DecidableEq, Repr

inductive ActionResult where
  | success (action : Option String)
  | error (e : ActionError)
deriving DecidableEq, Repr

def ActionResult.isError : ActionResult → Bool
  | .success _ => false
  | .error _ => true

/-- table.js:860-1000 `handleAction` up to (excluding) the closing
broadcast and `checkHandProgress()` call: validation and the
fold/check/call/raise switch.  The write-only `_lastRaiserSeat`
bookkeeping field is dropped (nothing in the source reads it). -/
def actionSwitch (s : TableState) (token : Nat) (action : String) (amount : Int) :
    TableState × ActionResult :=
  match findPlayer s token with
  | none => (s, .error .playerNotFound)
  | some player =>
      if s.phase == Phase.waiting || s.phase == Phase.showdown then
        (s, .error .noActiveHand)
      else
        match getCurrentPlayer s with
        | none => (s, .error .notYourTurn)
        | some current =>
            if current.id != token then (s, .error .notYourTurn)
            else
              let toCall := s.currentBetLevel - player.currentBet
              if action == "fold" then
                let p2 := { player with status := PStatus.folded, lastAction := some "fold" }
                (updateSeat s player.seat p2, .success p2.lastAction)
              else if action == "check" then
                if toCall > 0 then (s, .error .cannotCheck)
                else
                  let p2 := { player with lastAction := some "check" }
                  (updateSeat s player.seat p2, .success p2.lastAction)
              else if action == "call" then
                let br := player.bet toCall
                let p2 := { br.1 with lastAction := some "call" }
                let s2 := { updateSeat s player.seat p2 with pot := s.pot + br.2 }
                let s3 := if p2.status == PStatus.allIn then calculatePots s2 else s2
                (s3, .success p2.lastAction)
              else if action == "raise" then
                let raiseTotal := amount
                let originalStack := player.stack + player.currentBet
                if raiseTotal < s.currentBetLevel + s.minRaise ∧ raiseTotal < originalStack then
                  (s, .error (.minRaiseIsTo (s.currentBetLevel + s.minRaise)))
                else
                  let raiseAmount := raiseTotal - player.currentBet
                  let br := player.bet raiseAmount
                  let p2 := br.1
                  let oldBetLevel := s.currentBetLevel
                  let s2 := { updateSeat s player.seat p2 with
                    pot := s.pot + br.2, currentBetLevel := p2.currentBet }
                  if p2.status == PStatus.allIn then
                    let raiseIncrement := p2.currentBet - oldBetLevel
                    if raiseIncrement ≥ s.minRaise then
                      let p3 := { p2 with lastAction := some "raise" }
                      let s3 := { updateSeat s2 player.seat p3 with minRaise := raiseIncrement }
                      (calculatePots s3, .success p3.lastAction)
                    else
                      let p3 := { p2 with lastAction := some "call" }
                      (calculatePots (updateSeat s2 player.seat p3), .success p3.lastAction)
                  else
                    let raiseIncrement := p2.currentBet - oldBetLevel
                    let p3 := { p2 with lastAction := some "raise" }
                    let s3 := { updateSeat s2 player.seat p3 with minRaise := raiseIncrement }
                    (s3, .success p3.lastAction)
              else (s, .error .unknownAction)

/-- table.js:860-1000 `handleAction(token, action, amount)`: the switch
followed (on success only) by `checkHandProgress()`. -/
def handleAction (fuel : Nat) (s : TableState) (token : Nat) (action : String)
    (amount : Int) : TableState × ActionResult :=
  match actionSwitch s token action amount with
  | (s2, ActionResult.success a) => (checkHandProgress fuel s2, ActionResult.success a)
  | (s2, ActionResult.error e) => (s2, ActionResult.error e)

/-! ## Seating and the join route (table.js:155-171, routes.js:41-94) -/

/-- table.js:155-171 `seatPlayer(player)`: lowest empty seat, or `none`
when the table is full (the delayed auto-start is a separate event). -/
def seatPlayer (s : TableState) (p : Player) : TableState × Option Nat :=
  match s.seats.findIdx? (fun seat => seat.isNone) with
  | none => (s, none)
  | some emptyIndex =>
      ({ s with seats := s.seats.set emptyIndex (some { p with seat := emptyIndex }) },
        some emptyIndex)

/-- The outcomes of POST /api/join (routes.js:41-94). -/
inductive JoinResult where
  | errNameRequired
  | errTableType
  | errBuyInRange (lo hi : Int)
  | errDuplicateName
  | errTableFull
  | joined (token : Nat) (seat : Nat) (stack : Int)
deriving DecidableEq, Repr

/-- routes.js:59 `const chips = buyIn || config.DEFAULT_BUY_IN;` — the
number 0 (and an absent field) is falsy, so both fall back to the
default. -/
def joinChips (buyIn : Option Int) : Int :=
  match buyIn with
  | none => DEFAULT_BUY_IN
  | some v => if v == 0 then DEFAULT_BUY_IN else v

/-- JavaScript `String.prototype.trim` whitespace test, restricted to
the ASCII whitespace characters. -/
def isJsSpace (c : Char) : Bool :=
  c == ' ' || c == '\t' || c == '\n' || c == '\r'

/-- JavaScript `name.trim()`: strip leading and trailing whitespace. -/
def jsTrim (s : String) : String :=
  ⟨((s.data.dropWhile isJsSpace).reverse.dropWhile isJsSpace).reverse⟩

/-- routes.js:41-94 — the join handler against an already-located table
(`tableManager` routing out of scope; the fresh uuid token is an
input).  An empty or all-blank name is rejected; `tableType || 'free'`
is embedded with the empty string as the absent value. -/
def joinTable (s : TableState) (name : String) (buyIn : Option Int) (tableType : String)
    (newToken : Nat) : TableState × JoinResult :=
  if (jsTrim name).length == 0 then (s, .errNameRequired)
  else
    let type := if tableType == "" then "free" else tableType
    if !(type == "free" || type == "paid") then (s, .errTableType)
    else
      let chips := joinChips buyIn
      if chips < s.minBuyIn ∨ s.maxBuyIn < chips then
        (s, .errBuyInRange s.minBuyIn s.maxBuyIn)
      else
        let trimmedName := jsTrim name
        let existingNames := (seatedPlayers s).map (fun p => p.name.toLower)
        if existingNames.contains trimmedName.toLower then (s, .errDuplicateName)
        else
          let player := Player.make newToken trimmedName chips
          let r := seatPlayer s player
          match r.2 with
          | none => (r.1, .errTableFull)
          | some seat => (r.1, .joined newToken seat chips)

/-! ## Observables and well-formedness -/

/-- The chips a seat owns plus the chips it has committed this hand,
summed over the table — the quantity of spec §8 invariant 1. -/
def sumStackTb (s : TableState) : Int :=
  ((seatedPlayers s).map (fun p => p.stack + p.totalBetThisHand)).sum

/-- `Σ pots[*].amount`. -/
def sumPotAmounts (pots : List Pot) : Int :=
  (pots.map (fun p => p.amount)).sum

/-- `Σ seats.totalBetThisHand` over every seated player, folded players
included. -/
def sumTotalBets (s : TableState) : Int :=
  ((seatedPlayers s).map (fun p => p.totalBetThisHand)).sum

/-- Well-formedness maintained by the source through object identity:
each seated player's `seat` field is the index they occupy. -/
def seatsAligned (s : TableState) : Bool :=
  (List.range s.seats.length).all (fun i =>
    match s.seats.getD i none with
    | some p => p.seat == i
    | none => true)

/-! ## Concrete states used by counterexamples and witnesses -/

/-- A seated player with the given game state and no cards. -/
def samplePlayer (id : Nat) (nm : String) (stack : Int) (seat : Nat) (st : PStatus)
    (cb tb : Int) (la : Option String) : Player :=
  { id := id, name := nm, stack := stack, holeCards := [], seat := seat, status := st,
    currentBet := cb, totalBetThisHand := tb, lastAction := la, sitOut := false,
    handsWon := 0, handsPlayed := 0 }

/-- A free table (blinds 1/2) in the given betting position. -/
def sampleTable (seats : List (Option Player)) (pot cbl mr : Int) (phase : Phase)
    (cpi dealer : Int) : TableState :=
  { seats := seats, deck := [], communityCards := [], pot := pot, pots := [],
    phase := phase, dealerSeat := dealer, currentPlayerIndex := cpi, minRaise := mr,
    currentBetLevel := cbl, handNumber := 1, smallBlind := 1, bigBlind := 2,
    minBuyIn := 40, maxBuyIn := 400, runItTwiceActive := false, runItTwiceVotes := [],
    runItTwiceEligiblePlayers := [] }

/-- Scenario 1 of the spec: heads-up, blinds 1/2 posted from 200-chip
stacks, button (small blind, seat 0) to act preflop. -/
def headsUpAfterBlinds : TableState := sampleTable
  [some (samplePlayer 1 "Alpha" 199 0 .active 1 1 (some "small blind")),
   some (samplePlayer 2 "Beta" 198 1 .active 2 2 (some "big blind")),
   none, none, none, none, none, none, none] 3 2 2 .preflop 0 0

/-- Preflop after a raise to 10 (minRaise 8) and a call: seat 0 raised,
seat 2 called, and seat 1 — holding only 5 chips — is to act. -/
def shortStackFacingTen : TableState := sampleTable
  [some (samplePlayer 1 "A" 190 0 .active 10 10 (some "raise")),
   some (samplePlayer 2 "B" 5 1 .active 0 0 none),
   some (samplePlayer 3 "C" 190 2 .active 10 10 (some "call")),
   none, none, none, none, none, none] 20 10 8 .preflop 1 2

/-- Scenario 5 of the spec: preflop, currentBetLevel 10 after seat 0's
raise (minRaise 8); seat 1 holds exactly 14 chips and is to act. -/
def incompleteAllInSetup : TableState := sampleTable
  [some (samplePlayer 1 "Y" 190 0 .active 10 10 (some "raise")),
   some (samplePlayer 2 "X" 14 1 .active 0 0 none),
   none, none, none, none, none, none, none] 10 10 8 .preflop 1 0

/-- Like `incompleteAllInSetup` but the actor has a deep stack, so a
one-chip-short raise is not an all-in. -/
def deepStackFacingTen : TableState := sampleTable
  [some (samplePlayer 1 "Y" 190 0 .active 10 10 (some "raise")),
   some (samplePlayer 2 "X" 200 1 .active 0 0 none),
   none, none, none, none, none, none, none] 10 10 8 .preflop 1 0

/-- Two players all-in for 60 while seat 2, who had bet 100, was folded
by `removePlayer`/disconnect handling: 40 of the folded player's chips
lie above every all-in level with no active non-all-in seat left. -/
def foldedOverbet : TableState := sampleTable
  [some (samplePlayer 1 "E" 0 0 .allIn 60 60 (some "call")),
   some (samplePlayer 2 "F" 0 1 .allIn 60 60 (some "call")),
   some (samplePlayer 3 "D" 50 2 .folded 100 100 (some "raise")),
   none, none, none, none, none, none] 220 100 8 .preflop (-1) 0

/-- The button player of `headsUpBeforeBlinds`. -/
def hbSmall : Player := samplePlayer 1 "Alpha" 200 0 .active 0 0 none

/-- The other player of `headsUpBeforeBlinds`. -/
def hbBig : Player := samplePlayer 2 "Beta" 200 1 .active 0 0 none

/-- Scenario 1 of the spec one step earlier: the hand has started but the
blinds are not yet posted. -/
def headsUpBeforeBlinds : TableState := sampleTable
  [some hbSmall, some hbBig, none, none, none, none, none, none, none] 0 0 2 .preflop (-1) 0

/-- Scenario 4 of the spec: button at seat 1, winners at seats 3 and 6
splitting 7 chips. -/
def oddChipTable : TableState := sampleTable
  [none, none, none, none, none, none, none, none, none] 0 0 2 .showdown (-1) 1

/-- An empty free table accepting joins. -/
def emptyTable : TableState := sampleTable
  [none, none, none, none, none, none, none, none, none] 0 0 2 .waiting (-1) (-1)

/-! # Theorems -/

/-! ## Properties of the score comparator -/

theorem cmpKick_nil_right (a : List Int) : cmpKick a [] = cmpHead a := by
  cases a <;> rfl

theorem cmpKick_self (a : List Int) : cmpKick a a = 0 := by
  induction a with
  | nil => simp [cmpKick, cmpTail]
  | cons x xs ih => simp [cmpKick, ih]

theorem compareScores_self (a : List Int) : compareScores a a = 0 := by
  simp [compareScores, cmpKick_self]

theorem cmpHead_neg (l : List Int) : cmpHead l = -(cmpTail l) := by
  induction l with
  | nil => simp [cmpHead, cmpTail]
  | cons y ys ih =>
      simp only [cmpHead, cmpTail]
      rw [ih]
      split_ifs with h1 h2 h2 <;> omega

theorem cmpKick_neg (a b : List Int) : cmpKick a b = -(cmpKick b a) := by
  match a, b with
  | [], [] => simp [cmpKick, cmpTail]
  | [], y :: ys =>
      show cmpTail (y :: ys) = -(cmpHead (y :: ys))
      simp [cmpHead_neg]
  | x :: xs, [] =>
      show cmpHead (x :: xs) = -(cmpTail (x :: xs))
      simp [cmpHead_neg]
  | x :: xs, y :: ys =>
      simp only [cmpKick]
      split_ifs with h1 h2 h2 <;> first | omega | rw [cmpKick_neg xs ys]

theorem compareScores_neg (a b : List Int) : compareScores a b = -(compareScores b a) := by
  simp only [compareScores]
  split_ifs with h1 h2 h2 <;> first | omega | rw [cmpKick_neg (a.drop 1) (b.drop 1)]

theorem cmpKick_trans (a b c : List Int) (h1 : cmpKick a b ≤ 0) (h2 : cmpKick b c ≤ 0) :
    cmpKick a c ≤ 0 := by
  match a, b, c with
  | [], [], c => exact h2
  | [], y :: ys, [] => simp [cmpKick, cmpTail]
  | [], y :: ys, z :: zs =>
      simp only [cmpKick, cmpTail] at h1 h2 ⊢
      split_ifs at h1 h2 ⊢ <;> first | omega | exact cmpKick_trans [] ys zs h1 h2
  | x :: xs, [], [] => exact h1
  | x :: xs, [], z :: zs =>
      simp only [cmpKick, cmpHead, cmpTail] at h1 h2 ⊢
      split_ifs at h1 h2 ⊢ <;>
        first
          | omega
          | exact cmpKick_trans xs [] zs (by rw [cmpKick_nil_right]; exact h1) h2
  | x :: xs, y :: ys, [] =>
      simp only [cmpKick, cmpHead] at h1 h2 ⊢
      split_ifs at h1 h2 ⊢ <;>
        first
          | omega
          | (rw [← cmpKick_nil_right]
             exact cmpKick_trans xs ys [] h1 (by rw [cmpKick_nil_right]; exact h2))
  | x :: xs, y :: ys, z :: zs =>
      simp only [cmpKick] at h1 h2 ⊢
      split_ifs at h1 h2 ⊢ <;> first | omega | exact cmpKick_trans xs ys zs h1 h2
termination_by a.length + b.length + c.length

theorem compareScores_trans (a b c : List Int) (h1 : compareScores a b ≤ 0)
    (h2 : compareScores b c ≤ 0) : compareScores a c ≤ 0 := by
  simp only [compareScores] at h1 h2 ⊢
  split_ifs at h1 h2 ⊢ <;> first | omega | exact cmpKick_trans _ _ _ h1 h2

/-! ## The 7-card evaluation is the best 5-card evaluation (C7 support) -/

/-- Invariant of the `evaluateHand` fold: starting from an already-seen
best, the fold returns a candidate drawn from the initial best or the
remaining combos, never worse than the initial best, and at least as
good as every remaining combo. -/
theorem evaluateHand_fold_spec (combos : List (List Card)) (b : HandEval) (bc : List Card) :
    ∃ b2 bc2,
      combos.foldl
        (fun best combo =>
          let result := evaluate5 combo
          match best with
          | none => some (result, combo)
          | some (b, bc) =>
              if compareScores result.score b.score > 0 then some (result, combo)
              else some (b, bc))
        (some (b, bc)) = some (b2, bc2) ∧
      ((b2 = b ∧ bc2 = bc) ∨ (bc2 ∈ combos ∧ b2 = evaluate5 bc2)) ∧
      compareScores b.score b2.score ≤ 0 ∧
      ∀ c ∈ combos, compareScores (evaluate5 c).score b2.score ≤ 0 := by
  induction combos generalizing b bc with
  | nil =>
      refine ⟨b, bc, rfl, Or.inl ⟨rfl, rfl⟩, ?_, ?_⟩
      · simp [compareScores_self]
      · intro c hc; simp at hc
  | cons c rest ih =>
      simp only [List.foldl_cons]
      by_cases hcmp : compareScores (evaluate5 c).score b.score > 0
      · -- the new combo replaces the running best
        simp only [hcmp, if_pos]
        obtain ⟨b2, bc2, heq, horig, hle, hall⟩ := ih (evaluate5 c) c
        refine ⟨b2, bc2, heq, ?_, ?_, ?_⟩
        · rcases horig with ⟨hb, hbc⟩ | ⟨hm, hv⟩
          · exact Or.inr ⟨by simp [hbc], by rw [hb, hbc]⟩
          · exact Or.inr ⟨by simp [hm], hv⟩
        · -- b ⊑ evaluate5 c ⊑ b2
          have hflip : compareScores b.score (evaluate5 c).score ≤ 0 := by
            rw [compareScores_neg]; omega
          exact compareScores_trans _ _ _ hflip hle
        · intro c2 hc2
          rcases List.mem_cons.mp hc2 with h | h
          · subst h; exact hle
          · exact hall c2 h
      · -- the running best survives this combo
        simp only [hcmp, if_neg, not_false_iff]
        obtain ⟨b2, bc2, heq, horig, hle, hall⟩ := ih b bc
        refine ⟨b2, bc2, heq, ?_, hle, ?_⟩
        · rcases horig with ⟨hb, hbc⟩ | ⟨hm, hv⟩
          · exact Or.inl ⟨hb, hbc⟩
          · exact Or.inr ⟨by simp [hm], hv⟩
        · intro c2 hc2
          rcases List.mem_cons.mp hc2 with h | h
          · subst h
            have : compareScores (evaluate5 c2).score b.score ≤ 0 := by omega
            exact compareScores_trans _ _ _ this hle
          · exact hall c2 h

/-- `evaluateHand` on a non-empty combination list returns the best
5-card evaluation. -/
theorem evaluateHand_spec (cards : List Card) (c0 : List Card) (rest : List (List Card))
    (hc : combinations cards 5 = c0 :: rest) :
    ∃ r combo, evaluateHand cards = some (r, combo) ∧
      combo ∈ combinations cards 5 ∧ r = evaluate5 combo ∧
      ∀ c ∈ combinations cards 5, compareScores (evaluate5 c).score r.score ≤ 0 := by
  unfold evaluateHand
  rw [hc]
  simp only [List.foldl_cons]
  obtain ⟨b2, bc2, heq, horig, hle, hall⟩ := evaluateHand_fold_spec rest (evaluate5 c0) c0
  refine ⟨b2, bc2, heq, ?_, ?_, ?_⟩
  · rcases horig with ⟨_, hbc⟩ | ⟨hm, _⟩
    · simp [hbc]
    · simp [hm]
  · rcases horig with ⟨hb, hbc⟩ | ⟨_, hv⟩
    · rw [hb, hbc]
    · exact hv
  · intro c hcm
    rcases List.mem_cons.mp hcm with h | h
    · subst h; exact hle
    · exact hall c h

/-- The `combinations` enumeration has `n.choose k` entries. -/
theorem combinations_length (l : List α) (k : Nat) :
    (combinations l k).length = l.length.choose k := by
  match l, k with
  | _, 0 => simp [combinations]
  | [], k + 1 => simp [combinations]
  | x :: xs, k + 1 =>
      simp only [combinations, List.length_append, List.length_map, List.length_cons]
      rw [combinations_length xs k, combinations_length xs (k + 1)]
      exact (Nat.choose_succ_succ xs.length k).symm

/-! ## The wheel straight (C6 support) -/

/-- Two lists with the same elements have the same descending sort. -/
theorem sortDesc_eq_of_perm {l1 l2 : List Int} (h : l1.Perm l2) :
    sortDesc l1 = sortDesc l2 := by
  refine List.eq_of_perm_of_sorted ?_ (List.sorted_insertionSort _ l1)
    (List.sorted_insertionSort _ l2)
  exact ((List.perm_insertionSort _ l1).trans h).trans (List.perm_insertionSort _ l2).symm

/-- On any five cards whose rank values sort to `[14, 5, 4, 3, 2]`,
`evaluate5` reports the 5-high straight, upgraded to a straight flush
exactly when the cards are suited. -/
theorem evaluate5_wheel (cards : List Card)
    (hv : sortDesc (cards.map fun c => rankValue c.rank) = [14, 5, 4, 3, 2]) :
    evaluate5 cards =
      if isFlushOf (cards.map fun c => c.suit) then ⟨2, [2, 5], HAND_NAMES 2⟩
      else ⟨6, [6, 5], HAND_NAMES 6⟩ := by
  unfold evaluate5
  rw [hv]
  cases hf : isFlushOf (cards.map fun c => c.suit) <;> simp [hf] <;> decide

/-- `isFlushOf` over a card list's suits is the suited predicate. -/
theorem isFlushOf_iff (l : List Card) :
    isFlushOf (l.map fun c => c.suit) = true ↔ ∀ c ∈ l, ∀ c2 ∈ l, c.suit = c2.suit := by
  cases l with
  | nil => simp [isFlushOf]
  | cons c0 rest =>
      simp only [isFlushOf, List.map_cons, List.all_eq_true, List.mem_cons, List.mem_map,
        beq_iff_eq]
      constructor
      · intro h c hc c2 hc2
        have h1 : c.suit = c0.suit := by
          rcases hc with rfl | hc
          · rfl
          · exact h c.suit (Or.inr ⟨c, hc, rfl⟩)
        have h2 : c2.suit = c0.suit := by
          rcases hc2 with rfl | hc2
          · rfl
          · exact h c2.suit (Or.inr ⟨c2, hc2, rfl⟩)
        rw [h1, h2]
      · intro h s hs
        rcases hs with rfl | ⟨c, hc, rfl⟩
        · rfl
        · exact h c (Or.inr hc) c0 (Or.inl rfl)

/-- C6 (confirmed): every 5-card hand whose ranks are A, 2, 3, 4, 5 is
classified by `evaluate5` as a straight — a straight flush when suited —
with tiebreak high card 5, so under `compareScores` it ties any other
5-high straight of the same category and loses to every straight of the
same category with a higher high card. -/
theorem C6_wheelStraight (l : List Card)
    (hr : (l.map fun c => c.rank).Perm [Rank.ace, Rank.two, Rank.three, Rank.four, Rank.five]) :
    (evaluate5 l =
      if ∀ c ∈ l, ∀ c2 ∈ l, c.suit = c2.suit then ⟨2, [2, 5], HAND_NAMES 2⟩
      else ⟨6, [6, 5], HAND_NAMES 6⟩) ∧
    compareScores [2, 5] [2, 5] = 0 ∧
    compareScores [6, 5] [6, 5] = 0 ∧
    (∀ h : Int, 6 ≤ h → compareScores [6, 5] [6, h] < 0 ∧ compareScores [2, 5] [2, h] < 0) := by
  have hv : sortDesc (l.map fun c => rankValue c.rank) = [14, 5, 4, 3, 2] := by
    have h2 : (l.map fun c => rankValue c.rank).Perm [14, 2, 3, 4, 5] := by
      have h3 := hr.map rankValue
      simpa [List.map_map, Function.comp] using h3
    rw [sortDesc_eq_of_perm h2]
    decide
  refine ⟨?_, by decide, by decide, ?_⟩
  · rw [evaluate5_wheel l hv]
    by_cases hs : ∀ c ∈ l, ∀ c2 ∈ l, c.suit = c2.suit
    · have hb := (isFlushOf_iff l).mpr hs
      rw [if_pos hs]
      simp [hb]
    · have hb : isFlushOf (l.map fun c => c.suit) = false := by
        rw [← Bool.not_eq_true]
        exact fun hcon => hs ((isFlushOf_iff l).mp hcon)
      rw [if_neg hs]
      simp [hb]
  · intro h hh
    constructor <;> (simp only [compareScores, cmpKick, List.getD_cons_zero, List.drop_succ_cons,
      List.drop_zero]; split_ifs <;> omega)

/-- Witness for C6 at the concrete hand A♠ 2♥ 3♠ 4♠ 5♠. -/
theorem C6_witness :
    (([⟨.ace, .spades⟩, ⟨.two, .hearts⟩, ⟨.three, .spades⟩, ⟨.four, .spades⟩,
        ⟨.five, .spades⟩] : List Card).map (fun c => c.rank)).Perm
      [Rank.ace, Rank.two, Rank.three, Rank.four, Rank.five] ∧
    ((evaluate5 [⟨.ace, .spades⟩, ⟨.two, .hearts⟩, ⟨.three, .spades⟩, ⟨.four, .spades⟩,
        ⟨.five, .spades⟩] =
      if ∀ c ∈ ([⟨.ace, .spades⟩, ⟨.two, .hearts⟩, ⟨.three, .spades⟩, ⟨.four, .spades⟩,
          ⟨.five, .spades⟩] : List Card),
         ∀ c2 ∈ ([⟨.ace, .spades⟩, ⟨.two, .hearts⟩, ⟨.three, .spades⟩, ⟨.four, .spades⟩,
          ⟨.five, .spades⟩] : List Card), c.suit = c2.suit
      then ⟨2, [2, 5], HAND_NAMES 2⟩
      else ⟨6, [6, 5], HAND_NAMES 6⟩) ∧
    compareScores [2, 5] [2, 5] = 0 ∧
    compareScores [6, 5] [6, 5] = 0 ∧
    (∀ h : Int, 6 ≤ h → compareScores [6, 5] [6, h] < 0 ∧ compareScores [2, 5] [2, h] < 0)) :=
  ⟨by decide, C6_wheelStraight _ (by decide)⟩

/-- C7 (confirmed): on a 7-card input, `evaluateHand` enumerates all 21
five-card subsets and returns the evaluation of one of them that is,
under `compareScores`, at least as good as the direct `evaluate5`
evaluation of every subset. -/
theorem C7_bestOfSeven (cards : List Card) (h : cards.length = 7) :
    (combinations cards 5).length = 21 ∧
    ∃ r combo, evaluateHand cards = some (r, combo) ∧
      combo ∈ combinations cards 5 ∧ r = evaluate5 combo ∧
      ∀ c ∈ combinations cards 5, compareScores (evaluate5 c).score r.score ≤ 0 := by
  have hlen : (combinations cards 5).length = 21 := by
    rw [combinations_length, h]
    decide
  refine ⟨hlen, ?_⟩
  obtain ⟨c0, rest, hc⟩ : ∃ c0 rest, combinations cards 5 = c0 :: rest := by
    cases hcc : combinations cards 5 with
    | nil => rw [hcc] at hlen; simp at hlen
    | cons a l => exact ⟨a, l, rfl⟩
  exact evaluateHand_spec cards c0 rest hc

/-- Witness for C7 at a concrete 7-card input. -/
theorem C7_witness :
    sevenCardSample.length = 7 ∧
    ((combinations sevenCardSample 5).length = 21 ∧
      ∃ r combo, evaluateHand sevenCardSample = some (r, combo) ∧
        combo ∈ combinations sevenCardSample 5 ∧ r = evaluate5 combo ∧
        ∀ c ∈ combinations sevenCardSample 5,
          compareScores (evaluate5 c).score r.score ≤ 0) :=
  ⟨by decide, C7_bestOfSeven sevenCardSample (by decide)⟩

/-! ## Small facts about the engine -/

theorem calculatePots_seats (s : TableState) : (calculatePots s).seats = s.seats := by
  unfold calculatePots
  split <;> rfl

theorem calculatePots_currentBetLevel (s : TableState) :
    (calculatePots s).currentBetLevel = s.currentBetLevel := by
  unfold calculatePots
  split <;> rfl

theorem calculatePots_minRaise (s : TableState) : (calculatePots s).minRaise = s.minRaise := by
  unfold calculatePots
  split <;> rfl

theorem handleAction_snd (fuel : Nat) (s : TableState) (token : Nat) (action : String)
    (amount : Int) :
    (handleAction fuel s token action amount).2 = (actionSwitch s token action amount).2 := by
  unfold handleAction
  rcases hsw : actionSwitch s token action amount with ⟨s2, r⟩
  cases r <;> simp

/-! ## C9 — error results leave the table unchanged -/

theorem actionSwitch_error_eq (s : TableState) (token : Nat) (action : String) (amount : Int)
    (s2 : TableState) (e : ActionError)
    (h : actionSwitch s token action amount = (s2, ActionResult.error e)) : s2 = s := by
  unfold actionSwitch at h
  rcases hfp : findPlayer s token with _ | p <;> rw [hfp] at h <;> dsimp only [] at h
  · injection h with h1 h2; exact h1.symm
  by_cases hph : (s.phase == Phase.waiting || s.phase == Phase.showdown) = true
  · rw [if_pos hph] at h; injection h with h1 h2; exact h1.symm
  rw [if_neg hph] at h
  rcases hcur : getCurrentPlayer s with _ | cur <;> rw [hcur] at h <;> dsimp only [] at h
  · injection h with h1 h2; exact h1.symm
  by_cases hid : (cur.id != token) = true
  · rw [if_pos hid] at h; injection h with h1 h2; exact h1.symm
  rw [if_neg hid] at h
  by_cases ha1 : (action == "fold") = true
  · rw [if_pos ha1] at h; injection h with h1 h2; exact ActionResult.noConfusion h2
  rw [if_neg ha1] at h
  by_cases ha2 : (action == "check") = true
  · rw [if_pos ha2] at h
    by_cases htc : s.currentBetLevel - p.currentBet > 0
    · rw [if_pos htc] at h; injection h with h1 h2; exact h1.symm
    · rw [if_neg htc] at h; injection h with h1 h2; exact ActionResult.noConfusion h2
  rw [if_neg ha2] at h
  by_cases ha3 : (action == "call") = true
  · rw [if_pos ha3] at h
    try dsimp only [] at h
    injection h with h1 h2; exact ActionResult.noConfusion h2
  rw [if_neg ha3] at h
  by_cases ha4 : (action == "raise") = true
  · rw [if_pos ha4] at h
    try dsimp only [] at h
    by_cases hval : amount < s.currentBetLevel + s.minRaise ∧ amount < p.stack + p.currentBet
    · rw [if_pos hval] at h; injection h with h1 h2; exact h1.symm
    · rw [if_neg hval] at h
      try dsimp only [] at h
      repeat' split at h
      all_goals (injection h with h1 h2; exact ActionResult.noConfusion h2)
  · rw [if_neg ha4] at h; injection h with h1 h2; exact h1.symm

/-- C9 (confirmed): whenever `handleAction` returns one of its error
results (player not found, no active hand, not your turn, cannot check
against a bet, raise below minimum, unknown action), the resulting table
state — seats with every player's stack, currentBet, totalBetThisHand
and status, pot, pots, currentBetLevel, minRaise and phase — is exactly
the input state. -/
theorem C9_errorsPreserveState (fuel : Nat) (s : TableState) (token : Nat) (action : String)
    (amount : Int) (e : ActionError)
    (h : (handleAction fuel s token action amount).2 = ActionResult.error e) :
    (handleAction fuel s token action amount).1 = s := by
  unfold handleAction at h ⊢
  rcases hsw : actionSwitch s token action amount with ⟨s2, r⟩
  rw [hsw] at h
  cases r with
  | success a => simp at h
  | error e2 => exact actionSwitch_error_eq s token action amount s2 e2 hsw

/-- Witness for C9: acting out of turn at the Scenario-1 table is
rejected and changes nothing. -/
theorem C9_witness :
    (handleAction 20 headsUpAfterBlinds 2 "check" 0).2 =
      ActionResult.error ActionError.notYourTurn ∧
    (handleAction 20 headsUpAfterBlinds 2 "check" 0).1 = headsUpAfterBlinds :=
  ⟨by decide, C9_errorsPreserveState 20 headsUpAfterBlinds 2 "check" 0
      ActionError.notYourTurn (by decide)⟩

/-! ## C3 — bet-level monotonicity within a street -/

/-- C3 (code bug): a short all-in "raise" below the standing bet level
LOWERS `currentBetLevel` within the same street.  At
`shortStackFacingTen` (currentBetLevel 10, minRaise 8) the 5-chip stack
raises to 6: the validation accepts it because 6 ≥ the player's whole
stake, and `currentBetLevel` is then assigned the all-in total 5 while
the street continues (phase stays preflop, seat 2 is prompted) and seat
0 still has `currentBet = 10` — contradicting both the claim and the
source's own invariant `currentBetLevel // Highest bet in current
round`. -/
theorem C3_bug_evaluation :
    shortStackFacingTen.currentBetLevel = 10 ∧
    (handleAction 20 shortStackFacingTen 2 "raise" 6).2 =
      ActionResult.success (some "call") ∧
    (handleAction 20 shortStackFacingTen 2 "raise" 6).1.phase = Phase.preflop ∧
    (handleAction 20 shortStackFacingTen 2 "raise" 6).1.currentBetLevel = 5 ∧
    ((handleAction 20 shortStackFacingTen 2 "raise" 6).1.seats.getD 0 none).map
        (fun p => p.currentBet) = some 10 := by
  refine ⟨rfl, ?_, ?_, ?_, ?_⟩ <;> decide

/-! ## C4 — the incomplete all-in raise -/

/-- C4 (corrected), counterexample to the claim as stated: after the
Scenario-5 incomplete all-in (raise to 14 over level 10 with minRaise
8), the player who had already closed their action at 10 raises again to
22 = 14 + 8 and the system accepts it — the claim says such a player may
only call or fold. -/
theorem C4_counterexample :
    (handleAction 20 incompleteAllInSetup 2 "raise" 14).2 =
      ActionResult.success (some "call") ∧
    (handleAction 20 incompleteAllInSetup 2 "raise" 14).1.currentBetLevel = 14 ∧
    (handleAction 20 incompleteAllInSetup 2 "raise" 14).1.minRaise = 8 ∧
    (handleAction 20 incompleteAllInSetup 2 "raise" 14).1.phase = Phase.preflop ∧
    (handleAction 20 (handleAction 20 incompleteAllInSetup 2 "raise" 14).1 1 "raise" 22).2 =
      ActionResult.success (some "raise") := by
  refine ⟨?_, ?_, ?_, ?_, ?_⟩ <;> decide

/-- Effects of an all-in raise whose increment is below `minRaise`
(table.js:953-965): the bet level becomes the all-in total, `minRaise`
is untouched, and the action is recorded as a call. -/
theorem incompleteAllIn_effects (s : TableState) (token : Nat) (amount : Int) (p cur : Player)
    (hfp : findPlayer s token = some p) (hcur : getCurrentPlayer s = some cur)
    (hid : cur.id = token)
    (hw : s.phase ≠ Phase.waiting) (hsd : s.phase ≠ Phase.showdown)
    (hfull : p.stack + p.currentBet ≤ amount)
    (hinc : p.currentBet + p.stack - s.currentBetLevel < s.minRaise) :
    (actionSwitch s token "raise" amount).2 = ActionResult.success (some "call") ∧
    (actionSwitch s token "raise" amount).1.currentBetLevel = p.currentBet + p.stack ∧
    (actionSwitch s token "raise" amount).1.minRaise = s.minRaise := by
  have hphase : (s.phase == Phase.waiting || s.phase == Phase.showdown) = false := by
    simp [hw, hsd]
  have hid2 : (cur.id != token) = false := by simp [hid]
  have hval : ¬ (amount < s.currentBetLevel + s.minRaise ∧ amount < p.stack + p.currentBet) := by
    omega
  have hmin : min (amount - p.currentBet) p.stack = p.stack := min_eq_right (by omega)
  unfold actionSwitch
  simp only [hfp, hphase, hcur, hid2, Bool.false_eq_true, if_false,
    show (("raise" : String) == "fold") = false from rfl,
    show (("raise" : String) == "check") = false from rfl,
    show (("raise" : String) == "call") = false from rfl,
    show (("raise" : String) == "raise") = true from rfl, if_true]
  rw [if_neg hval]
  dsimp only [Player.bet]
  rw [hmin]
  simp only [sub_self, beq_self_eq_true, if_true]
  rw [if_neg (show ¬ p.currentBet + p.stack - s.currentBetLevel ≥ s.minRaise from by omega)]
  refine ⟨rfl, ?_, ?_⟩
  · rw [calculatePots_currentBetLevel]
    rfl
  · rw [calculatePots_minRaise]
    rfl

/-- A raise whose validation passes (table.js:921-923) is never
rejected: every branch of the raise case returns success. -/
theorem raiseNotRejected (s : TableState) (token : Nat) (amount : Int) (p cur : Player)
    (hfp : findPlayer s token = some p) (hcur : getCurrentPlayer s = some cur)
    (hid : cur.id = token)
    (hw : s.phase ≠ Phase.waiting) (hsd : s.phase ≠ Phase.showdown)
    (hval : ¬ (amount < s.currentBetLevel + s.minRaise ∧ amount < p.stack + p.currentBet)) :
    ∃ a, (actionSwitch s token "raise" amount).2 = ActionResult.success a := by
  have hphase : (s.phase == Phase.waiting || s.phase == Phase.showdown) = false := by
    simp [hw, hsd]
  have hid2 : (cur.id != token) = false := by simp [hid]
  unfold actionSwitch
  simp only [hfp, hphase, hcur, hid2, Bool.false_eq_true, if_false,
    show (("raise" : String) == "fold") = false from rfl,
    show (("raise" : String) == "check") = false from rfl,
    show (("raise" : String) == "call") = false from rfl,
    show (("raise" : String) == "raise") = true from rfl, if_true]
  rw [if_neg hval]
  dsimp only [Player.bet]
  split_ifs <;> exact ⟨_, rfl⟩

/-- A raise below both the minimum total and the player's whole stake is
rejected with the minimum-raise error (table.js:921-923). -/
theorem raiseRejected (s : TableState) (token : Nat) (amount : Int) (p cur : Player)
    (hfp : findPlayer s token = some p) (hcur : getCurrentPlayer s = some cur)
    (hid : cur.id = token)
    (hw : s.phase ≠ Phase.waiting) (hsd : s.phase ≠ Phase.showdown)
    (hlt : amount < s.currentBetLevel + s.minRaise)
    (hsh : amount < p.stack + p.currentBet) :
    (actionSwitch s token "raise" amount).2 =
      ActionResult.error (ActionError.minRaiseIsTo (s.currentBetLevel + s.minRaise)) := by
  have hphase : (s.phase == Phase.waiting || s.phase == Phase.showdown) = false := by
    simp [hw, hsd]
  have hid2 : (cur.id != token) = false := by simp [hid]
  unfold actionSwitch
  simp only [hfp, hphase, hcur, hid2, Bool.false_eq_true, if_false,
    show (("raise" : String) == "fold") = false from rfl,
    show (("raise" : String) == "check") = false from rfl,
    show (("raise" : String) == "call") = false from rfl,
    show (("raise" : String) == "raise") = true from rfl, if_true]
  rw [if_pos ⟨hlt, hsh⟩]

/-- C4 (corrected): when the current actor's raise commits their whole
stake and its increment over the standing `currentBetLevel` is below
`minRaise`, the level rises to the all-in total, `minRaise` is unchanged
and the action is recorded as a call — but no reopening restriction
exists: afterwards ANY current actor whose raise total meets
`currentBetLevel + minRaise` is accepted, including one who had already
closed their action at the prior level (the source's `_lastRaiserSeat`
is never read). -/
theorem C4_amended_incompleteAllIn :
    (∀ (s : TableState) (token : Nat) (amount : Int) (p cur : Player),
      findPlayer s token = some p → getCurrentPlayer s = some cur → cur.id = token →
      s.phase ≠ Phase.waiting → s.phase ≠ Phase.showdown →
      p.stack + p.currentBet ≤ amount →
      p.currentBet + p.stack - s.currentBetLevel < s.minRaise →
      (actionSwitch s token "raise" amount).2 = ActionResult.success (some "call") ∧
      (actionSwitch s token "raise" amount).1.currentBetLevel = p.currentBet + p.stack ∧
      (actionSwitch s token "raise" amount).1.minRaise = s.minRaise) ∧
    (∀ (s : TableState) (token : Nat) (amount : Int) (p cur : Player),
      findPlayer s token = some p → getCurrentPlayer s = some cur → cur.id = token →
      s.phase ≠ Phase.waiting → s.phase ≠ Phase.showdown →
      s.currentBetLevel + s.minRaise ≤ amount →
      ∃ a, (actionSwitch s token "raise" amount).2 = ActionResult.success a) :=
  ⟨fun s token amount p cur hfp hcur hid hw hsd hfull hinc =>
      incompleteAllIn_effects s token amount p cur hfp hcur hid hw hsd hfull hinc,
   fun s token amount p cur hfp hcur hid hw hsd hge =>
      raiseNotRejected s token amount p cur hfp hcur hid hw hsd (by omega)⟩

/-- Witness for C4 at Scenario 5 (all-in to 14 over level 10, minRaise
8) and a deep-stack raise to 22 = 14 + 8. -/
theorem C4_witness :
    ((actionSwitch incompleteAllInSetup 2 "raise" 14).2 =
        ActionResult.success (some "call") ∧
      (actionSwitch incompleteAllInSetup 2 "raise" 14).1.currentBetLevel = 0 + 14 ∧
      (actionSwitch incompleteAllInSetup 2 "raise" 14).1.minRaise =
        incompleteAllInSetup.minRaise) ∧
    (∃ a, (actionSwitch deepStackFacingTen 2 "raise" 18).2 = ActionResult.success a) :=
  ⟨C4_amended_incompleteAllIn.1 incompleteAllInSetup 2 14
      (samplePlayer 2 "X" 14 1 .active 0 0 none) (samplePlayer 2 "X" 14 1 .active 0 0 none)
      (by decide) (by decide) (by decide) (by decide) (by decide) (by decide) (by decide),
   C4_amended_incompleteAllIn.2 deepStackFacingTen 2 18
      (samplePlayer 2 "X" 200 1 .active 0 0 none) (samplePlayer 2 "X" 200 1 .active 0 0 none)
      (by decide) (by decide) (by decide) (by decide) (by decide) (by decide)⟩

/-! ## C5 — the minimum-raise boundary -/

/-- C5 (confirmed): for the current actor, a raise to exactly
`currentBetLevel + minRaise` succeeds; a raise to
`currentBetLevel + minRaise − 1` is rejected with the minimum-raise
error whenever that total is below the player's whole stake, and is
accepted when it commits the player's entire remaining stack. -/
theorem C5_minRaiseBoundary (s : TableState) (token : Nat) (p cur : Player)
    (hfp : findPlayer s token = some p) (hcur : getCurrentPlayer s = some cur)
    (hid : cur.id = token)
    (hw : s.phase ≠ Phase.waiting) (hsd : s.phase ≠ Phase.showdown) :
    (∃ a, (handleAction 20 s token "raise" (s.currentBetLevel + s.minRaise)).2 =
        ActionResult.success a) ∧
    (s.currentBetLevel + s.minRaise - 1 < p.stack + p.currentBet →
      (handleAction 20 s token "raise" (s.currentBetLevel + s.minRaise - 1)).2 =
        ActionResult.error (ActionError.minRaiseIsTo (s.currentBetLevel + s.minRaise))) ∧
    (p.stack + p.currentBet ≤ s.currentBetLevel + s.minRaise - 1 →
      ∃ a, (handleAction 20 s token "raise" (s.currentBetLevel + s.minRaise - 1)).2 =
        ActionResult.success a) := by
  refine ⟨?_, ?_, ?_⟩
  · rw [handleAction_snd]
    exact raiseNotRejected s token _ p cur hfp hcur hid hw hsd (by omega)
  · intro hbig
    rw [handleAction_snd]
    exact raiseRejected s token _ p cur hfp hcur hid hw hsd (by omega) hbig
  · intro hallin
    rw [handleAction_snd]
    exact raiseNotRejected s token _ p cur hfp hcur hid hw hsd (by omega)

/-- Witness for C5 at `deepStackFacingTen` (level 10, minRaise 8, stack
200): raise to 18 accepted, raise to 17 rejected. -/
theorem C5_witness :
    (∃ a, (handleAction 20 deepStackFacingTen 2 "raise"
        (deepStackFacingTen.currentBetLevel + deepStackFacingTen.minRaise)).2 =
      ActionResult.success a) ∧
    ((handleAction 20 deepStackFacingTen 2 "raise"
        (deepStackFacingTen.currentBetLevel + deepStackFacingTen.minRaise - 1)).2 =
      ActionResult.error (ActionError.minRaiseIsTo
        (deepStackFacingTen.currentBetLevel + deepStackFacingTen.minRaise))) := by
  have h := C5_minRaiseBoundary deepStackFacingTen 2
    (samplePlayer 2 "X" 200 1 .active 0 0 none) (samplePlayer 2 "X" 200 1 .active 0 0 none)
    (by decide) (by decide) (by decide) (by decide) (by decide)
  exact ⟨h.1, h.2.1 (by decide)⟩

/-! ## C8 — pot split and the odd chip -/

/-- The button-distance walk agrees with subtraction mod MAX_SEATS on
in-range seats (checked exhaustively over the 81 seat pairs). -/
theorem getDistanceGo_fin : ∀ (w d : Fin 9),
    getDistanceFromDealerGo ((w : Nat) : Int) ((d : Nat) : Int) 0 MAX_PLAYERS =
      ((((w : Nat) : Int) - ((d : Nat) : Int)).emod (MAX_PLAYERS : Int)).toNat := by
  decide

theorem getDistanceFromDealer_eq (s : TableState) (w : Nat) (hw : w < MAX_PLAYERS)
    (hd0 : 0 ≤ s.dealerSeat) (hd9 : s.dealerSeat < (MAX_PLAYERS : Int)) :
    (getDistanceFromDealer s w : Int) = ((w : Int) - s.dealerSeat).emod (MAX_PLAYERS : Int) := by
  have h9 : (MAX_PLAYERS : Int) = 9 := rfl
  have hdlt : s.dealerSeat.toNat < 9 := by omega
  have hd : s.dealerSeat = ((s.dealerSeat.toNat : Nat) : Int) :=
    (Int.toNat_of_nonneg hd0).symm
  have hfin : getDistanceFromDealerGo (w : Int) ((s.dealerSeat.toNat : Nat) : Int) 0
      MAX_PLAYERS = (((w : Int) - ((s.dealerSeat.toNat : Nat) : Int)).emod
        (MAX_PLAYERS : Int)).toNat :=
    getDistanceGo_fin ⟨w, hw⟩ ⟨s.dealerSeat.toNat, hdlt⟩
  unfold getDistanceFromDealer
  rw [hd, hfin]
  exact Int.toNat_of_nonneg (Int.emod_nonneg _ (by decide))

/-- The odd-chip scan keeps an element of the list (or the seed) whose
distance is minimal among seed and list. -/
theorem oddChipScan (s : TableState) (ws : List Nat) (w0 : Nat) :
    ((ws.foldl (fun best p =>
        if getDistanceFromDealer s p < getDistanceFromDealer s best then p else best) w0) = w0 ∨
      (ws.foldl (fun best p =>
        if getDistanceFromDealer s p < getDistanceFromDealer s best then p else best) w0) ∈ ws) ∧
    getDistanceFromDealer s (ws.foldl (fun best p =>
        if getDistanceFromDealer s p < getDistanceFromDealer s best then p else best) w0) ≤
      getDistanceFromDealer s w0 ∧
    ∀ p ∈ ws, getDistanceFromDealer s (ws.foldl (fun best p =>
        if getDistanceFromDealer s p < getDistanceFromDealer s best then p else best) w0) ≤
      getDistanceFromDealer s p := by
  induction ws generalizing w0 with
  | nil => exact ⟨Or.inl rfl, le_refl _, by intro p hp; simp at hp⟩
  | cons w ws ih =>
      simp only [List.foldl_cons]
      by_cases hlt : getDistanceFromDealer s w < getDistanceFromDealer s w0
      · rw [if_pos hlt]
        obtain ⟨ihm, ihle, ihall⟩ := ih w
        refine ⟨?_, ?_, ?_⟩
        · rcases ihm with h | h
          · exact Or.inr (by simp [h])
          · exact Or.inr (List.mem_cons_of_mem _ h)
        · omega
        · intro p hp
          rcases List.mem_cons.mp hp with rfl | hp2
          · exact ihle
          · exact ihall p hp2
      · rw [if_neg hlt]
        obtain ⟨ihm, ihle, ihall⟩ := ih w0
        refine ⟨?_, ?_, ?_⟩
        · rcases ihm with h | h
          · exact Or.inl h
          · exact Or.inr (List.mem_cons_of_mem _ h)
        · exact ihle
        · intro p hp
          rcases List.mem_cons.mp hp with rfl | hp2
          · omega
          · exact ihall p hp2

/-- C8 (confirmed): at showdown each pot is split by `distributePot`
into equal shares of `⌊amount / |winners|⌋` with remainder
`amount mod |winners|`, and `getOddChipWinner` hands the remainder to
the winner whose clockwise distance from the button seat, measured
modulo MAX_SEATS, is strictly smaller than every other winner's. -/
theorem C8_oddChipDistribution :
    (∀ (amount : Int) (winners : List PlayerHand) (eligibleSeats : List Nat),
      winners ≠ [] →
      (∀ d ∈ (distributePot amount winners eligibleSeats).1,
          d.amount = Int.fdiv amount (winners.length : Int)) ∧
        (distributePot amount winners eligibleSeats).2 =
          amount % (winners.length : Int)) ∧
    (∀ (s : TableState) (winners : List Nat),
      winners ≠ [] → (∀ w ∈ winners, w < MAX_PLAYERS) →
      0 ≤ s.dealerSeat → s.dealerSeat < (MAX_PLAYERS : Int) →
      ∃ w, getOddChipWinner s winners = some w ∧ w ∈ winners ∧
        ∀ w2 ∈ winners, w2 ≠ w →
          ((w : Int) - s.dealerSeat).emod (MAX_PLAYERS : Int) <
            ((w2 : Int) - s.dealerSeat).emod (MAX_PLAYERS : Int)) := by
  constructor
  · intro amount winners eligibleSeats hne
    constructor
    · intro d hd
      unfold distributePot at hd
      simp only [List.mem_map] at hd
      obtain ⟨w, _, rfl⟩ := hd
      rfl
    · unfold distributePot
      have hlen : 0 < (winners.length : Int) := by
        have : winners.length ≠ 0 := fun h => hne (List.eq_nil_of_length_eq_zero h)
        omega
      have hfd : Int.fdiv amount (winners.length : Int) = amount / (winners.length : Int) :=
        Int.fdiv_eq_ediv amount (le_of_lt hlen)
      simp only [hfd]
      have h1 := Int.emod_def amount (winners.length : Int)
      have h2 : (winners.length : Int) * (amount / (winners.length : Int)) =
          amount / (winners.length : Int) * (winners.length : Int) := mul_comm _ _
      omega
  · intro s winners hne hrange hd0 hd9
    match winners, hne with
    | w0 :: ws, _ =>
        by_cases hlen : (w0 :: ws).length ≤ 1
        · have hws : ws = [] := by
            cases ws with
            | nil => rfl
            | cons a l => simp at hlen
          subst hws
          refine ⟨w0, by simp [getOddChipWinner], List.mem_singleton_self w0, ?_⟩
          intro w2 hw2 hne2
          simp at hw2
          exact absurd hw2 hne2
        · obtain ⟨hmem, hle0, hall⟩ := oddChipScan s (w0 :: ws) w0
          generalize hreq : (w0 :: ws).foldl (fun best p =>
            if getDistanceFromDealer s p < getDistanceFromDealer s best then p else best) w0 = r
            at hmem hle0 hall
          have hrmem : r ∈ w0 :: ws := by
            rcases hmem with h | h
            · rw [h]; exact List.mem_cons_self _ _
            · exact h
          refine ⟨r, ?_, hrmem, ?_⟩
          · unfold getOddChipWinner
            dsimp only []
            rw [if_neg hlen, hreq]
          · intro w2 hw2 hner
            have hle := hall w2 hw2
            have he1 := getDistanceFromDealer_eq s r (hrange r hrmem) hd0 hd9
            have he2 := getDistanceFromDealer_eq s w2 (hrange w2 hw2) hd0 hd9
            have hMn : MAX_PLAYERS = 9 := rfl
            have hrlt : (r : Int) < 9 := by
              have hx := hrange r hrmem
              omega
            have hw2lt : (w2 : Int) < 9 := by
              have hx := hrange w2 hw2
              omega
            have hner2 : (w2 : Int) ≠ (r : Int) := by
              intro hcon
              exact hner (by omega)
            have h9 : (MAX_PLAYERS : Int) = 9 := rfl
            rw [h9] at he1 he2 ⊢
            have hle2 : (↑r - s.dealerSeat).emod 9 ≤ ((w2 : Int) - s.dealerSeat).emod 9 := by
              rw [← he1, ← he2]
              exact_mod_cast hle
            rcases lt_or_eq_of_le hle2 with hcase | hcase
            · exact hcase
            · exfalso
              have hsub : ((↑r - s.dealerSeat) - ((w2 : Int) - s.dealerSeat)) % (9 : Int) = 0 :=
                Int.emod_eq_emod_iff_emod_sub_eq_zero.mp hcase
              have hrw : ((r : Int) - w2) % (9 : Int) = 0 := by
                have hx : (↑r - s.dealerSeat) - ((w2 : Int) - s.dealerSeat) = (r : Int) - w2 := by
                  ring
                rwa [hx] at hsub
              omega

/-- Witness for C8 at Scenario 4: 7 chips, winners at seats 6 and 3,
button at seat 1. -/
theorem C8_witness :
    ((∀ d ∈ (distributePot 7 [⟨6, noHand⟩, ⟨3, noHand⟩] [3, 6]).1,
        d.amount = Int.fdiv 7 (([⟨6, noHand⟩, ⟨3, noHand⟩] : List PlayerHand).length : Int)) ∧
      (distributePot 7 [⟨6, noHand⟩, ⟨3, noHand⟩] [3, 6]).2 =
        7 % (([⟨6, noHand⟩, ⟨3, noHand⟩] : List PlayerHand).length : Int)) ∧
    (∃ w, getOddChipWinner oddChipTable [6, 3] = some w ∧ w ∈ [6, 3] ∧
      ∀ w2 ∈ [6, 3], w2 ≠ w →
        ((w : Int) - oddChipTable.dealerSeat).emod (MAX_PLAYERS : Int) <
          ((w2 : Int) - oddChipTable.dealerSeat).emod (MAX_PLAYERS : Int)) :=
  ⟨C8_oddChipDistribution.1 7 [⟨6, noHand⟩, ⟨3, noHand⟩] [3, 6] (by decide),
   C8_oddChipDistribution.2 oddChipTable [6, 3] (by decide) (by decide) (by decide) (by decide)⟩

/-! ## C1 — pot conservation in calculatePots -/

theorem sum_map_add_int (l : List Player) (f g : Player → Int) :
    (l.map (fun p => f p + g p)).sum = (l.map f).sum + (l.map g).sum := by
  induction l with
  | nil => simp
  | cons a as ih => simp [ih]; ring

theorem sum_map_sub_int (l : List Player) (f g : Player → Int) :
    (l.map (fun p => f p - g p)).sum = (l.map f).sum - (l.map g).sum := by
  induction l with
  | nil => simp
  | cons a as ih => simp [ih]; ring

theorem foldl_posadd_sum (g : Player → Int) (l : List Player) :
    ∀ (a : Int), l.foldl (fun acc p => if g p > 0 then acc + g p else acc) a
      = a + (l.map (fun p => if g p > 0 then g p else 0)).sum := by
  induction l with
  | nil => intro a; simp
  | cons x xs ih =>
      intro a
      simp only [List.foldl_cons, List.map_cons, List.sum_cons]
      by_cases hx : g x > 0
      · rw [if_pos hx, if_pos hx, ih (a + g x)]; ring
      · rw [if_neg hx, if_neg hx, ih a]; ring

theorem foldl_add_sum (g : Player → Int) (l : List Player) :
    ∀ (a : Int), l.foldl (fun acc p => acc + g p) a = a + (l.map g).sum := by
  induction l with
  | nil => intro a; simp
  | cons x xs ih =>
      intro a
      simp only [List.foldl_cons, List.map_cons, List.sum_cons]
      rw [ih (a + g x)]; ring

/-- The chips one contributor puts into the pot layer between `prev` and
`l` equal the difference of their capped contributions. -/
theorem layer_term (tb prev l : Int) (h : prev ≤ l) :
    (if min (tb - prev) (l - prev) > 0 then min (tb - prev) (l - prev) else 0)
      = min tb l - min tb prev := by
  omega

theorem min_add_max0 (a m : Int) : min a m + max 0 (a - m) = a := by omega

theorem sumPotAmounts_append (pots : List Pot) (pot : Pot) :
    sumPotAmounts (pots ++ [pot]) = sumPotAmounts pots + pot.amount := by
  unfold sumPotAmounts
  simp

theorem sum_maxzero_nonneg (g : Player → Int) (l : List Player) :
    0 ≤ (l.map (fun p => if g p > 0 then g p else 0)).sum := by
  apply List.sum_nonneg
  intro x hx
  obtain ⟨p, _, rfl⟩ := List.mem_map.mp hx
  split <;> omega

/-- The per-level pot loop telescopes: over an ascending level list whose
levels are each witnessed by an active player, the final `prevLevel` is
the greatest level, and the amounts added to the pot list sum to each
contributor's stake capped at that greatest level. -/
theorem levelPotsGo_spec (contributors active : List Player) :
    ∀ (levels : List Int) (prev : Int) (pots : List Pot),
    (∀ l ∈ levels, prev ≤ l) →
    List.Pairwise (fun a b => a < b) levels →
    (∀ l ∈ levels, ∃ p ∈ active, p.totalBetThisHand = l) →
    (levelPotsGo contributors active levels prev pots).2 = levels.foldl max prev ∧
    sumPotAmounts (levelPotsGo contributors active levels prev pots).1
      = sumPotAmounts pots
        + (contributors.map (fun p =>
            min p.totalBetThisHand (levels.foldl max prev)
              - min p.totalBetThisHand prev)).sum := by
  intro levels
  induction levels with
  | nil =>
      intro prev pots _ _ _
      refine ⟨rfl, ?_⟩
      simp [levelPotsGo]
  | cons level rest ih =>
      intro prev pots hprev hasc hcov
      have hpl : prev ≤ level := hprev level (List.mem_cons_self level rest)
      have hasc' : List.Pairwise (fun a b => a < b) rest := (List.pairwise_cons.mp hasc).2
      have hlt : ∀ l ∈ rest, level < l := (List.pairwise_cons.mp hasc).1
      have hcov' : ∀ l ∈ rest, ∃ p ∈ active, p.totalBetThisHand = l :=
        fun l hl => hcov l (List.mem_cons_of_mem level hl)
      by_cases hinc : level - prev ≤ 0
      · have hlp : level = prev := by omega
        have hstep : levelPotsGo contributors active (level :: rest) prev pots
            = levelPotsGo contributors active rest prev pots := by
          rw [levelPotsGo, if_pos hinc]
        have hmax : max prev level = prev := by omega
        have hprev' : ∀ l ∈ rest, prev ≤ l := by
          intro l hl; have := hlt l hl; omega
        obtain ⟨hp2, hs2⟩ := ih prev pots hprev' hasc' hcov'
        rw [hstep, List.foldl_cons, hmax]
        exact ⟨hp2, hs2⟩
      · have hmax : max prev level = level := by omega
        have hprev' : ∀ l ∈ rest, level ≤ l := by
          intro l hl; have := hlt l hl; omega
        obtain ⟨p0, hp0mem, hp0tb⟩ := hcov level (List.mem_cons_self level rest)
        have hpelig : p0 ∈ active.filter (fun p => p.totalBetThisHand ≥ level) := by
          rw [List.mem_filter]
          refine ⟨hp0mem, ?_⟩
          simp [hp0tb]
        have heligne : ((active.filter (fun p => p.totalBetThisHand ≥ level)).map
            (fun p => p.seat)).isEmpty = false := by
          rw [List.isEmpty_eq_false]
          intro hnil
          rw [List.map_eq_nil_iff] at hnil
          rw [hnil] at hpelig
          exact (List.not_mem_nil p0) hpelig
        have hamt : contributors.foldl
            (fun acc p =>
              let contribution := min (p.totalBetThisHand - prev) (level - prev)
              if contribution > 0 then acc + contribution else acc) 0
            = (contributors.map (fun p =>
                if min (p.totalBetThisHand - prev) (level - prev) > 0 then
                  min (p.totalBetThisHand - prev) (level - prev) else 0)).sum := by
          rw [foldl_posadd_sum (fun p => min (p.totalBetThisHand - prev) (level - prev))
            contributors 0]
          ring
        have hlayer : (contributors.map (fun p =>
              if min (p.totalBetThisHand - prev) (level - prev) > 0 then
                min (p.totalBetThisHand - prev) (level - prev) else 0)).sum
            = (contributors.map (fun p =>
                min p.totalBetThisHand level - min p.totalBetThisHand prev)).sum := by
          congr 1
          apply List.map_congr_left
          intro p _
          exact layer_term p.totalBetThisHand prev level hpl
        rw [levelPotsGo, if_neg hinc, List.foldl_cons, hmax]
        refine ⟨(ih level _ hprev' hasc' hcov').1, ?_⟩
        rw [(ih level _ hprev' hasc' hcov').2]
        split
        · rw [sumPotAmounts_append]
          dsimp only []
          rw [hamt, hlayer, sum_map_sub_int, sum_map_sub_int, sum_map_sub_int]
          ring
        · rename_i hfalse
          rw [heligne] at hfalse
          simp only [Bool.not_false, Bool.and_true, decide_eq_true_eq, not_lt] at hfalse
          have hge : 0 ≤ (contributors.map (fun p =>
              if min (p.totalBetThisHand - prev) (level - prev) > 0 then
                min (p.totalBetThisHand - prev) (level - prev) else 0)).sum :=
            sum_maxzero_nonneg (fun p => min (p.totalBetThisHand - prev) (level - prev))
              contributors
          rw [hamt, hlayer] at hfalse
          rw [hlayer] at hge
          rw [sum_map_sub_int] at hfalse hge ⊢
          rw [sum_map_sub_int]
          omega

theorem allInLevels_pairwise (s : TableState) :
    List.Pairwise (fun a b => a < b) (allInLevels s) := by
  unfold allInLevels
  have hsorted : List.Sorted (fun a b : Int => a ≤ b)
      ((((activePlayers s).filter (fun p => p.status == PStatus.allIn)).map
        (fun p => p.totalBetThisHand)).insertionSort (fun a b => a ≤ b)) :=
    List.sorted_insertionSort _ _
  have hle : List.Pairwise (fun a b : Int => a ≤ b)
      (((((activePlayers s).filter (fun p => p.status == PStatus.allIn)).map
        (fun p => p.totalBetThisHand)).insertionSort (fun a b => a ≤ b)).dedup) :=
    List.Pairwise.sublist (List.dedup_sublist _) hsorted
  have hnd : (((((activePlayers s).filter (fun p => p.status == PStatus.allIn)).map
      (fun p => p.totalBetThisHand)).insertionSort (fun a b => a ≤ b)).dedup).Nodup :=
    List.nodup_dedup _
  exact (hle.and hnd).imp (fun h => lt_of_le_of_ne h.1 h.2)

theorem allInLevels_mem (s : TableState) (l : Int) (hl : l ∈ allInLevels s) :
    ∃ p ∈ activePlayers s, (p.status == PStatus.allIn) = true ∧ p.totalBetThisHand = l := by
  unfold allInLevels at hl
  rw [List.mem_dedup] at hl
  rw [List.mem_insertionSort] at hl
  obtain ⟨p, hp, htb⟩ := List.mem_map.mp hl
  rw [List.mem_filter] at hp
  exact ⟨p, hp.1, hp.2, htb⟩

theorem activePlayers_sub (s : TableState) (p : Player) (hp : p ∈ activePlayers s) :
    p ∈ seatedPlayers s := by
  unfold activePlayers at hp
  exact (List.mem_filter.mp hp).1

theorem maxAllInLevel_foldl (s : TableState)
    (h : ∀ l ∈ allInLevels s, (0:Int) ≤ l) :
    (allInLevels s).foldl max 0 = maxAllInLevel s := by
  unfold maxAllInLevel
  rcases heq : allInLevels s with _ | ⟨x, xs⟩
  · rfl
  · rw [List.foldl_cons, max_eq_right (h x (by rw [heq]; exact List.mem_cons_self x xs))]

theorem sum_filter_eq_sum (l : List Player) (f : Player → Int) (P : Player → Bool)
    (h : ∀ p ∈ l, P p = false → f p = 0) :
    ((l.filter P).map f).sum = (l.map f).sum := by
  induction l with
  | nil => simp
  | cons a as ih =>
      rw [List.filter_cons]
      have hih := ih (fun p hp hfp => h p (List.mem_cons_of_mem a hp) hfp)
      by_cases hPa : P a = true
      · rw [if_pos hPa]
        simp only [List.map_cons, List.sum_cons]
        rw [hih]
      · rw [if_neg hPa]
        simp only [List.map_cons, List.sum_cons, hih]
        have := h a (List.mem_cons_self a as) (by revert hPa; cases P a <;> simp)
        omega

theorem pots3_of_sum (pots2 fallback : List Pot) (c : Bool) (T : Int) (hT : 0 < T)
    (h2 : sumPotAmounts pots2 = T) :
    sumPotAmounts (if (pots2.length == 0 && c) = true then fallback else pots2) = T := by
  have hne : pots2 ≠ [] := by
    intro h
    subst h
    have hz : sumPotAmounts ([] : List Pot) = 0 := rfl
    omega
  have hlen : (pots2.length == 0) = false := by
    rw [beq_eq_false_iff_ne]
    exact fun h => hne (List.length_eq_zero.mp h)
  rw [hlen, Bool.false_and]
  rw [if_neg (by simp : ¬ ((false : Bool) = true))]
  exact h2

/-- `calculatePots` conserves chips when no folded player's stake sticks
out above every all-in level: under nonnegative stakes, and provided an
active non-all-in player remains or every stake is within the greatest
all-in level, the produced pots sum to the seated players' total
stakes. -/
theorem calculatePots_sum (s : TableState)
    (h0 : ∀ p ∈ seatedPlayers s, 0 ≤ p.totalBetThisHand)
    (h1 : activeNonAllIn s ≠ [] ∨
      ∀ p ∈ seatedPlayers s, p.totalBetThisHand ≤ maxAllInLevel s) :
    sumPotAmounts (calculatePots s).pots = sumTotalBets s := by
  have htbpos : ∀ p ∈ allContributors s, 0 < p.totalBetThisHand := by
    intro p hp
    unfold allContributors at hp
    rw [List.mem_filter] at hp
    have := hp.2
    simpa using this
  have hcsub : ∀ p ∈ allContributors s, p ∈ seatedPlayers s := by
    intro p hp
    unfold allContributors at hp
    exact (List.mem_filter.mp hp).1
  have hfilter : ((allContributors s).map (fun p => p.totalBetThisHand)).sum
      = sumTotalBets s := by
    unfold allContributors sumTotalBets
    apply sum_filter_eq_sum (seatedPlayers s)
    intro p hp hfp
    have h0p := h0 p hp
    have hnp : ¬ (p.totalBetThisHand > 0) := by simpa using hfp
    omega
  by_cases hc : (allContributors s).isEmpty = true
  · unfold calculatePots
    rw [if_pos hc]
    show sumPotAmounts [] = sumTotalBets s
    rw [← hfilter, List.isEmpty_iff.mp hc]
    rfl
  · have hasc := allInLevels_pairwise s
    have h0L : ∀ l ∈ allInLevels s, (0:Int) ≤ l := by
      intro l hl
      obtain ⟨p, hp, _, htb⟩ := allInLevels_mem s l hl
      have := h0 p (activePlayers_sub s p hp)
      omega
    have hcov : ∀ l ∈ allInLevels s, ∃ p ∈ activePlayers s, p.totalBetThisHand = l := by
      intro l hl
      obtain ⟨p, hp, _, htb⟩ := allInLevels_mem s l hl
      exact ⟨p, hp, htb⟩
    obtain ⟨hfin, hsum1⟩ := levelPotsGo_spec (allContributors s) (activePlayers s)
      (allInLevels s) 0 [] h0L hasc hcov
    rw [maxAllInLevel_foldl s h0L] at hsum1
    have hsum1' : sumPotAmounts (levelPotsGo (allContributors s) (activePlayers s)
        (allInLevels s) 0 []).1
        = ((allContributors s).map
            (fun p => min p.totalBetThisHand (maxAllInLevel s))).sum := by
      rw [hsum1]
      have hmc : (allContributors s).map (fun p =>
          min p.totalBetThisHand (maxAllInLevel s) - min p.totalBetThisHand 0)
          = (allContributors s).map
            (fun p => min p.totalBetThisHand (maxAllInLevel s)) := by
        apply List.map_congr_left
        intro p hp
        have := htbpos p hp
        omega
      rw [hmc]
      rw [show sumPotAmounts ([] : List Pot) = 0 from rfl]
      ring
    have hminmax : ((allContributors s).map
          (fun p => min p.totalBetThisHand (maxAllInLevel s))).sum
        + ((allContributors s).map
            (fun p => max 0 (p.totalBetThisHand - maxAllInLevel s))).sum
        = sumTotalBets s := by
      rw [← hfilter, ← sum_map_add_int]
      congr 1
      apply List.map_congr_left
      intro p _
      exact min_add_max0 _ _
    have hRsum : (allContributors s).foldl
        (fun acc p => acc + max 0 (p.totalBetThisHand - maxAllInLevel s)) 0
        = ((allContributors s).map
            (fun p => max 0 (p.totalBetThisHand - maxAllInLevel s))).sum := by
      rw [foldl_add_sum (fun p => max 0 (p.totalBetThisHand - maxAllInLevel s))]
      ring
    have hRnonneg : 0 ≤ ((allContributors s).map
        (fun p => max 0 (p.totalBetThisHand - maxAllInLevel s))).sum := by
      apply List.sum_nonneg
      intro x hx
      obtain ⟨p, _, rfl⟩ := List.mem_map.mp hx
      exact le_max_left 0 _
    have hTpos : 0 < sumTotalBets s := by
      rw [← hfilter]
      apply List.sum_pos
      · intro x hx
        obtain ⟨p, hp, rfl⟩ := List.mem_map.mp hx
        exact htbpos p hp
      · intro hmapnil
        rw [List.map_eq_nil_iff] at hmapnil
        rw [hmapnil] at hc
        exact hc rfl
    unfold calculatePots
    rw [if_neg hc]
    dsimp only []
    refine pots3_of_sum _ _ _ _ hTpos ?_
    split
    · split
      · rename_i hR
        rw [sumPotAmounts_append]
        dsimp only []
        rw [hsum1', hRsum]
        exact hminmax
      · rename_i hR
        rw [hsum1']
        rw [hRsum] at hR
        omega
    · rename_i hA
      have hAe : activeNonAllIn s = [] := by
        have hAt : (activeNonAllIn s).isEmpty = true := by
          revert hA
          cases (activeNonAllIn s).isEmpty <;> simp
        exact List.isEmpty_iff.mp hAt
      rcases h1 with h1l | h1r
      · exact absurd hAe h1l
      · rw [hsum1', ← hfilter]
        congr 1
        apply List.map_congr_left
        intro p hp
        have := h1r p (hcsub p hp)
        omega

/-- Each pot created by the per-level loop carries a cap level: all of
its eligible seats belong to active players whose stake reaches that
level. -/
theorem levelPotsGo_cap (contributors active : List Player) (LS : List Int) :
    ∀ (levels : List Int) (prev : Int) (pots : List Pot),
    (∀ l ∈ levels, l ∈ LS) →
    (∀ pot ∈ pots, ∃ l ∈ LS, ∀ st ∈ pot.eligible,
        ∃ p ∈ active, p.seat = st ∧ l ≤ p.totalBetThisHand) →
    ∀ pot ∈ (levelPotsGo contributors active levels prev pots).1,
      ∃ l ∈ LS, ∀ st ∈ pot.eligible,
        ∃ p ∈ active, p.seat = st ∧ l ≤ p.totalBetThisHand := by
  intro levels
  induction levels with
  | nil => intro prev pots _ hpots; exact hpots
  | cons level rest ih =>
      intro prev pots hsub hpots
      have hsub' : ∀ l ∈ rest, l ∈ LS :=
        fun l hl => hsub l (List.mem_cons_of_mem level hl)
      by_cases hinc : level - prev ≤ 0
      · rw [levelPotsGo, if_pos hinc]
        exact ih prev pots hsub' hpots
      · rw [levelPotsGo, if_neg hinc]
        apply ih level _ hsub'
        split
        · intro pot hpot
          rw [List.mem_append] at hpot
          rcases hpot with h | h
          · exact hpots pot h
          · rw [List.mem_singleton] at h
            subst h
            refine ⟨level, hsub level (List.mem_cons_self level rest), ?_⟩
            intro st hst
            obtain ⟨p, hpf, rfl⟩ := List.mem_map.mp hst
            rw [List.mem_filter] at hpf
            refine ⟨p, hpf.1, rfl, ?_⟩
            have := hpf.2
            simpa using this
        · exact hpots

/-- Every pot `calculatePots` produces is owed only to seats of active
players. -/
theorem calculatePots_eligible (s : TableState) :
    ∀ pot ∈ (calculatePots s).pots, ∀ st ∈ pot.eligible,
      ∃ p ∈ activePlayers s, p.seat = st := by
  have hlev := levelPotsGo_cap (allContributors s) (activePlayers s) (allInLevels s)
    (allInLevels s) 0 [] (fun _ hl => hl)
    (fun pot hpot => absurd hpot (List.not_mem_nil pot))
  have fromLevel : ∀ pot ∈ (levelPotsGo (allContributors s) (activePlayers s)
      (allInLevels s) 0 []).1, ∀ st ∈ pot.eligible, ∃ p ∈ activePlayers s, p.seat = st := by
    intro pot hpot st hst
    obtain ⟨l, _, hall⟩ := hlev pot hpot
    obtain ⟨p, hp, hseat, _⟩ := hall st hst
    exact ⟨p, hp, hseat⟩
  unfold calculatePots
  by_cases hc : (allContributors s).isEmpty = true
  · rw [if_pos hc]
    intro pot hpot
    exact absurd hpot (List.not_mem_nil pot)
  · rw [if_neg hc]
    dsimp only []
    intro pot hpot
    repeat' split at hpot
    all_goals first
      | exact fromLevel pot hpot
      | (rw [List.mem_singleton] at hpot
         subst hpot
         intro st hst
         obtain ⟨p, hp, rfl⟩ := List.mem_map.mp hst
         exact ⟨p, hp, rfl⟩)
      | (rw [List.mem_append] at hpot
         rcases hpot with h | h <;> first
           | exact fromLevel pot h
           | (rw [List.mem_singleton] at h
              subst h
              intro st hst
              obtain ⟨p, hp, rfl⟩ := List.mem_map.mp hst
              exact ⟨p, hp, rfl⟩))

/-- Counterexample to C1 as stated: at `foldedOverbet` — two players
all-in for 60 apiece, a third folded after staking 100, no active
non-all-in player left — the seated stakes sum to 220 but
`calculatePots` builds a single 180-chip main pot: the folded player's
40 chips above the 60-chip all-in level fall outside every level pot,
and with no active non-all-in player the uncapped remainder pot is never
built. -/
theorem C1_counterexample :
    sumTotalBets foldedOverbet = 220 ∧
    sumPotAmounts (calculatePots foldedOverbet).pots = 180 :=
  ⟨by decide, by decide⟩

/-- C1 (corrected): immediately after `calculatePots`, the pots sum to
the seated players' total stakes provided every stake is nonnegative and
either an active non-all-in player remains or no stake exceeds the
greatest all-in level — without that proviso the folded chips above
every all-in level are dropped, as the counterexample records.  The
eligibility half of the claim holds: every pot is owed only to seats of
active players, and each per-level pot carries a cap level that all its
eligible seats' stakes reach. -/
theorem C1_amended_potConservation (s : TableState)
    (h0 : ∀ p ∈ seatedPlayers s, 0 ≤ p.totalBetThisHand)
    (h1 : activeNonAllIn s ≠ [] ∨
      ∀ p ∈ seatedPlayers s, p.totalBetThisHand ≤ maxAllInLevel s) :
    sumPotAmounts (calculatePots s).pots = sumTotalBets s ∧
    (∀ pot ∈ (calculatePots s).pots, ∀ st ∈ pot.eligible,
      ∃ p ∈ activePlayers s, p.seat = st) ∧
    (∀ pot ∈ (levelPotsGo (allContributors s) (activePlayers s) (allInLevels s) 0 []).1,
      ∃ l ∈ allInLevels s, ∀ st ∈ pot.eligible,
        ∃ p ∈ activePlayers s, p.seat = st ∧ l ≤ p.totalBetThisHand) :=
  ⟨calculatePots_sum s h0 h1,
   calculatePots_eligible s,
   levelPotsGo_cap (allContributors s) (activePlayers s) (allInLevels s)
     (allInLevels s) 0 [] (fun _ hl => hl)
     (fun pot hpot => absurd hpot (List.not_mem_nil pot))⟩

/-- Witness for C1: the Scenario-1 table, where both blinds are staked
and both players remain active, conserves its 3 chips. -/
theorem C1_witness :
    ((∀ p ∈ seatedPlayers headsUpAfterBlinds, 0 ≤ p.totalBetThisHand) ∧
      activeNonAllIn headsUpAfterBlinds ≠ []) ∧
    sumPotAmounts (calculatePots headsUpAfterBlinds).pots
      = sumTotalBets headsUpAfterBlinds :=
  ⟨⟨by decide, by decide⟩,
   (C1_amended_potConservation headsUpAfterBlinds (by decide) (Or.inl (by decide))).1⟩

/-! ## C2 — chip conservation across a hand -/

theorem sum_set_stackTb (f : Player → Int) :
    ∀ (seats : List (Option Player)) (i : Nat) (p q : Player),
    seats.getD i none = some q →
    (((seats.set i (some p)).filterMap id).map f).sum
      = ((seats.filterMap id).map f).sum + f p - f q := by
  intro seats
  induction seats with
  | nil => intro i p q h; simp at h
  | cons a as ih =>
      intro i p q h
      cases i with
      | zero =>
          rw [List.getD_cons_zero] at h
          subst h
          simp [List.filterMap_cons]
          ring
      | succ j =>
          rw [List.getD_cons_succ] at h
          cases a with
          | none =>
              simp only [List.set_cons_succ, List.filterMap_cons]
              exact ih j p q h
          | some r =>
              simp only [List.set_cons_succ, List.filterMap_cons, id, List.map_cons,
                List.sum_cons]
              rw [ih j p q h]
              ring

theorem mem_seatedPlayers_getD (s : TableState) (p : Player)
    (hmem : p ∈ seatedPlayers s) (hal : seatsAligned s = true) :
    s.seats.getD p.seat none = some p := by
  unfold seatedPlayers at hmem
  rw [List.mem_filterMap] at hmem
  obtain ⟨o, ho, hop⟩ := hmem
  simp only [id] at hop
  subst hop
  obtain ⟨i, hilen, hget⟩ := List.mem_iff_getElem.mp ho
  unfold seatsAligned at hal
  rw [List.all_eq_true] at hal
  have hi := hal i (List.mem_range.mpr hilen)
  have hgd : s.seats.getD i none = some p := by
    rw [List.getD_eq_getElem?_getD, List.getElem?_eq_getElem hilen, hget]
    rfl
  rw [hgd] at hi
  simp only [beq_iff_eq] at hi
  rw [hi]
  exact hgd

theorem findPlayer_getD (s : TableState) (token : Nat) (p : Player)
    (hfp : findPlayer s token = some p) (hal : seatsAligned s = true) :
    s.seats.getD p.seat none = some p :=
  mem_seatedPlayers_getD s p (List.mem_of_find?_eq_some hfp) hal

theorem bet_stack_tb (p : Player) (amount : Int) :
    (p.bet amount).1.stack + (p.bet amount).1.totalBetThisHand
      = p.stack + p.totalBetThisHand := by
  simp [Player.bet]

theorem sumStackTb_seats_eq (s1 s2 : TableState) (h : s1.seats = s2.seats) :
    sumStackTb s1 = sumStackTb s2 := by
  unfold sumStackTb seatedPlayers
  rw [h]

theorem sumStackTb_updateSeat (s : TableState) (i : Nat) (p q : Player)
    (hq : s.seats.getD i none = some q)
    (hpq : p.stack + p.totalBetThisHand = q.stack + q.totalBetThisHand) :
    sumStackTb (updateSeat s i p) = sumStackTb s := by
  unfold sumStackTb seatedPlayers updateSeat
  rw [sum_set_stackTb (fun r => r.stack + r.totalBetThisHand) s.seats i p q hq]
  omega

theorem sumStackTb_pot (st : TableState) (v : Int) :
    sumStackTb { st with pot := v } = sumStackTb st := rfl

theorem sumStackTb_calculatePots (s : TableState) :
    sumStackTb (calculatePots s) = sumStackTb s :=
  sumStackTb_seats_eq _ _ (calculatePots_seats s)

/-- Every action the switch can process conserves `Σ (stack +
totalBetThisHand)`: chips only move between a stack and the same
player's hand commitment. -/
theorem actionSwitch_sumStackTb (s : TableState) (token : Nat) (action : String)
    (amount : Int) (hal : seatsAligned s = true) :
    sumStackTb (actionSwitch s token action amount).1 = sumStackTb s := by
  unfold actionSwitch
  rcases hfp : findPlayer s token with _ | p
  · rfl
  have hgd : s.seats.getD p.seat none = some p := findPlayer_getD s token p hfp hal
  dsimp only []
  by_cases hph : (s.phase == Phase.waiting || s.phase == Phase.showdown) = true
  · rw [if_pos hph]
  rw [if_neg hph]
  rcases hcur : getCurrentPlayer s with _ | cur
  · rfl
  dsimp only []
  by_cases hid : (cur.id != token) = true
  · rw [if_pos hid]
  rw [if_neg hid]
  by_cases ha1 : (action == "fold") = true
  · rw [if_pos ha1]
    dsimp only []
    exact sumStackTb_updateSeat s p.seat _ p hgd rfl
  rw [if_neg ha1]
  by_cases ha2 : (action == "check") = true
  · rw [if_pos ha2]
    by_cases htc : s.currentBetLevel - p.currentBet > 0
    · rw [if_pos htc]
    · rw [if_neg htc]
      dsimp only []
      exact sumStackTb_updateSeat s p.seat _ p hgd rfl
  rw [if_neg ha2]
  by_cases ha3 : (action == "call") = true
  · rw [if_pos ha3]
    dsimp only []
    have hset : sumStackTb { updateSeat s p.seat
        { (p.bet (s.currentBetLevel - p.currentBet)).1 with lastAction := some "call" } with
          pot := s.pot + (p.bet (s.currentBetLevel - p.currentBet)).2 } = sumStackTb s := by
      rw [sumStackTb_pot]
      exact sumStackTb_updateSeat s p.seat _ p hgd
        (bet_stack_tb p (s.currentBetLevel - p.currentBet))
    split
    · rw [sumStackTb_calculatePots]
      exact hset
    · exact hset
  rw [if_neg ha3]
  by_cases ha4 : (action == "raise") = true
  · rw [if_pos ha4]
    try dsimp only []
    by_cases hval : amount < s.currentBetLevel + s.minRaise ∧ amount < p.stack + p.currentBet
    · rw [if_pos hval]
    · rw [if_neg hval]
      try dsimp only []
      split
      · split
        · rw [sumStackTb_calculatePots]
          refine Eq.trans (sumStackTb_seats_eq _
            (updateSeat s p.seat { (p.bet (amount - p.currentBet)).1 with
              lastAction := some "raise" }) ?_)
            (sumStackTb_updateSeat s p.seat _ p hgd ?_)
          · simp [updateSeat, List.set_set]
          · exact bet_stack_tb p _
        · rw [sumStackTb_calculatePots]
          refine Eq.trans (sumStackTb_seats_eq _
            (updateSeat s p.seat { (p.bet (amount - p.currentBet)).1 with
              lastAction := some "call" }) ?_)
            (sumStackTb_updateSeat s p.seat _ p hgd ?_)
          · simp [updateSeat, List.set_set]
          · exact bet_stack_tb p _
      · refine Eq.trans (sumStackTb_seats_eq _
          (updateSeat s p.seat { (p.bet (amount - p.currentBet)).1 with
            lastAction := some "raise" }) ?_)
          (sumStackTb_updateSeat s p.seat _ p hgd ?_)
        · simp [updateSeat, List.set_set]
        · exact bet_stack_tb p _
  · rw [if_neg ha4]

theorem getD_set_ne_seat (l : List (Option Player)) (i j : Nat) (a : Option Player)
    (h : i ≠ j) : (l.set i a).getD j none = l.getD j none := by
  rw [List.getD_eq_getElem?_getD, List.getD_eq_getElem?_getD, List.getElem?_set_ne h]

theorem sumStackTb_potCbl (st : TableState) (v cb : Int) :
    sumStackTb { st with pot := v, currentBetLevel := cb } = sumStackTb st := rfl

/-- Posting the blinds conserves `Σ (stack + totalBetThisHand)`: each
blind moves chips from the poster's stack into their hand commitment.
The seat hypotheses are the object-identity facts the runtime maintains
(each blind poster occupies their own seat, and the two posters sit at
different seats). -/
theorem postBlinds_sumStackTb (s : TableState) (sb bb : Player)
    (hpick : pickBlinds s = some (sb, bb))
    (hgsb : s.seats.getD sb.seat none = some sb)
    (hgbb : s.seats.getD bb.seat none = some bb)
    (hne : sb.seat ≠ bb.seat) :
    sumStackTb (postBlinds s) = sumStackTb s := by
  unfold postBlinds
  by_cases hlen : ((seatedPlayers s).filter (fun p => p.status == PStatus.active)).length < 2
  · rw [if_pos hlen]
  rw [if_neg hlen, hpick]
  try dsimp only []
  rw [sumStackTb_potCbl]
  have hsb1 : ({ updateSeat s (sb.bet s.smallBlind).1.seat
      { (sb.bet s.smallBlind).1 with lastAction := some "small blind" } with
        pot := s.pot + (sb.bet s.smallBlind).2 }).seats.getD bb.seat none = some bb := by
    show (s.seats.set (sb.bet s.smallBlind).1.seat _).getD bb.seat none = some bb
    have hseat : (sb.bet s.smallBlind).1.seat = sb.seat := rfl
    rw [hseat, getD_set_ne_seat _ _ _ _ hne]
    exact hgbb
  refine Eq.trans (sumStackTb_updateSeat _ (bb.bet s.bigBlind).1.seat
    { (bb.bet s.bigBlind).1 with lastAction := some "big blind" } bb hsb1
    (bet_stack_tb bb s.bigBlind)) ?_
  rw [sumStackTb_pot]
  exact sumStackTb_updateSeat s (sb.bet s.smallBlind).1.seat
    { (sb.bet s.smallBlind).1 with lastAction := some "small blind" } sb hgsb
    (bet_stack_tb sb s.smallBlind)

/-- Counterexample to C2 as stated: at the Scenario-1 heads-up table the
seated stacks plus hand commitments sum to the 400 chips the hand
started with, but after the button folds — which ends the hand — the sum
is 403: `awardPotToSingleWinner` adds the 3-chip pot to the winner's
stack while both blinds' `totalBetThisHand` stay recorded until the next
hand's reset, so the end-of-hand state double-counts the pot. -/
theorem C2_counterexample :
    sumStackTb headsUpAfterBlinds = 400 ∧
    (handleAction 20 headsUpAfterBlinds 1 "fold" 0).2 =
      ActionResult.success (some "fold") ∧
    sumStackTb (handleAction 20 headsUpAfterBlinds 1 "fold" 0).1 = 403 := by
  refine ⟨?_, ?_, ?_⟩ <;> decide

/-- C2 (corrected): `Σ stack + Σ totalBetThisHand` over the seated
players is conserved by every step of a hand up to — but not including —
the pot award: placing a bet moves chips between the better's stack and
their `totalBetThisHand`, every action `handleAction`'s switch processes
conserves the sum (on a table whose players occupy their own seats), and
posting the blinds conserves it too; the hand's starting reset zeroes
each commitment without touching the stack, so the conserved sum is the
stacks as of hand start.  Awarding the pot at hand end breaks the
equality (the commitments reset only when the next hand starts), as the
counterexample records. -/
theorem C2_amended_chipConservation :
    (∀ (p : Player) (amount : Int),
        (p.bet amount).1.stack + (p.bet amount).1.totalBetThisHand
          = p.stack + p.totalBetThisHand) ∧
    (∀ (s : TableState) (token : Nat) (action : String) (amount : Int),
        seatsAligned s = true →
        sumStackTb (actionSwitch s token action amount).1 = sumStackTb s) ∧
    (∀ (s : TableState) (sb bb : Player),
        pickBlinds s = some (sb, bb) →
        s.seats.getD sb.seat none = some sb →
        s.seats.getD bb.seat none = some bb →
        sb.seat ≠ bb.seat →
        sumStackTb (postBlinds s) = sumStackTb s) ∧
    (∀ (p : Player),
        p.resetForHand.totalBetThisHand = 0 ∧ p.resetForHand.stack = p.stack) :=
  ⟨bet_stack_tb,
   actionSwitch_sumStackTb,
   postBlinds_sumStackTb,
   fun _ => ⟨rfl, rfl⟩⟩

/-- Witness for C2: the conserved sum across the button's preflop call
in Scenario 1, and across the blind posting one step earlier. -/
theorem C2_witness :
    (seatsAligned headsUpAfterBlinds = true ∧
      sumStackTb (actionSwitch headsUpAfterBlinds 1 "call" 0).1 =
        sumStackTb headsUpAfterBlinds) ∧
    (pickBlinds headsUpBeforeBlinds = some (hbSmall, hbBig) ∧
      sumStackTb (postBlinds headsUpBeforeBlinds) = sumStackTb headsUpBeforeBlinds) :=
  ⟨⟨by decide, C2_amended_chipConservation.2.1 headsUpAfterBlinds 1 "call" 0 (by decide)⟩,
   ⟨by decide, C2_amended_chipConservation.2.2.1 headsUpBeforeBlinds hbSmall hbBig
      (by decide) (by decide) (by decide) (by decide)⟩⟩

/-! ## C10 — a buy-in of 0 falls back to the default -/

/-- C10 (confirmed): a join request whose `buyIn` is the number 0 is not
rejected by the buy-in range check even though 0 is below the table's
minimum: the falsy value is replaced by `DEFAULT_BUY_IN = 200` before
the check, the request behaves exactly like one with no `buyIn` at all,
and the player is seated with 200 chips. -/
theorem C10_zeroBuyIn (s : TableState) (name : String) (token : Nat) (i : Nat)
    (hmin : 0 < s.minBuyIn) (hlo : s.minBuyIn ≤ 200) (hhi : 200 ≤ s.maxBuyIn)
    (hname : (jsTrim name).length ≠ 0)
    (hdup : ((seatedPlayers s).map (fun p => p.name.toLower)).contains (jsTrim name).toLower
      = false)
    (hseat : s.seats.findIdx? (fun seat => seat.isNone) = some i) :
    joinChips (some 0) = DEFAULT_BUY_IN ∧
    joinTable s name (some 0) "free" token = joinTable s name none "free" token ∧
    (joinTable s name (some 0) "free" token).2 = JoinResult.joined token i 200 := by
  refine ⟨rfl, rfl, ?_⟩
  have hn : ((jsTrim name).length == 0) = false := by simp [hname]
  have hD : DEFAULT_BUY_IN = 200 := rfl
  unfold joinTable
  simp only [hn, Bool.false_eq_true, if_false,
    show (("free" : String) == "") = false from rfl,
    show ((("free" : String) == "free") || (("free" : String) == "paid")) = true from rfl,
    Bool.not_true, joinChips, show ((0 : Int) == 0) = true from rfl, if_true]
  rw [if_neg (show ¬ (DEFAULT_BUY_IN < s.minBuyIn ∨ s.maxBuyIn < DEFAULT_BUY_IN) from by
    omega)]
  simp only [hdup, Bool.false_eq_true, if_false]
  unfold seatPlayer
  rw [hseat]
  rfl

/-- Witness for C10: joining an empty free table with `buyIn = 0`. -/
theorem C10_witness :
    (0 < emptyTable.minBuyIn ∧ emptyTable.minBuyIn ≤ 200 ∧ 200 ≤ emptyTable.maxBuyIn ∧
      (jsTrim "Zero").length ≠ 0 ∧
      ((seatedPlayers emptyTable).map (fun p => p.name.toLower)).contains
        (jsTrim "Zero").toLower = false ∧
      emptyTable.seats.findIdx? (fun seat => seat.isNone) = some 0) ∧
    (joinChips (some 0) = DEFAULT_BUY_IN ∧
      joinTable emptyTable "Zero" (some 0) "free" 7 = joinTable emptyTable "Zero" none "free" 7 ∧
      (joinTable emptyTable "Zero" (some 0) "free" 7).2 = JoinResult.joined 7 0 200) :=
  ⟨⟨by decide, by decide, by decide, by decide, by decide, by decide⟩,
   C10_zeroBuyIn emptyTable "Zero" 7 0 (by decide) (by decide) (by decide) (by decide)
     (by decide) (by decide)⟩

end MitsukisRoom
